import Mathlib

/-!
# The organization client of go-sentry-api (`organization.go`)

A shallow embedding of `organization.go`: the data declarations of the file, the
eight `Client` methods, and the two pieces of the Go standard library the file
leans on (`fmt.Sprintf` with the verb `%s`, and the struct-tag driven object
encoder and decoder of `encoding/json`).

Conventions of the embedding

* a Go `string` is a sequence of bytes. The strings this file only copies (methods,
  paths, slugs, identifiers) are kept as text, a Lean `String`, which stands for its
  UTF-8 bytes. The field `Name` is a `GoString`, the bytes themselves, because the
  statements below follow it through the JSON encoder, which changes bytes that are
  not UTF-8;
* a Go pointer `*T` is an `Option T`: `none` is the nil pointer, `some v` a pointer
  to a variable holding `v`. Aliasing is not represented: what a helper writes
  through a pointer that the copy of a struct shares with the original is not
  visible in the original, and nothing below states what becomes of such pointees;
* a Go slice `[]T` is a `Slice T`, which keeps the nil slice apart from the empty one;
* a Go `int` is an `Int` (the file performs no arithmetic);
* the request helpers `c.do` and `c.doWithPagination` live in another file of the
  package; they are fields of `Client`, so every statement below is quantified over
  all of their behaviours (as long as they return);
* a method runs in the monad `Go`, which threads the state of the outside world and
  the list of helper calls made so far, and which can end in a run-time panic.
-/

namespace Sentry

/-! ## Go values -/

/-- A non-nil value of Go's `error` interface. -/
structure GoError where
  msg : String
deriving DecidableEq, Repr

/-- Go's `error`: `none` is the nil error. -/
abbrev Error := Option GoError

/-- A Go slice: the nil slice, or a slice with elements (possibly none). -/
inductive Slice (α : Type) where
  | nil : Slice α
  | mk (elems : List α) : Slice α
deriving DecidableEq, Repr

/-- The elements of a slice; a nil slice has none. -/
def Slice.toList {α : Type} : Slice α → List α
  | .nil => []
  | .mk xs => xs

/-- The builtin `len` on slices. -/
def Slice.len {α : Type} (s : Slice α) : Nat := s.toList.length

/-! ## Go strings as bytes -/

/-- A Go string given by its bytes, numbers below 256. (A larger number is treated
like a byte that belongs to no character.) -/
abbrev GoString := List Nat

/-- The UTF-8 encoding of a character. -/
def utf8EncodeChar (c : Char) : List Nat :=
  if c.toNat < 0x80 then [c.toNat]
  else if c.toNat < 0x800 then [0xC0 + c.toNat / 0x40, 0x80 + c.toNat % 0x40]
  else if c.toNat < 0x10000 then
    [0xE0 + c.toNat / 0x1000, 0x80 + c.toNat / 0x40 % 0x40, 0x80 + c.toNat % 0x40]
  else
    [0xF0 + c.toNat / 0x40000, 0x80 + c.toNat / 0x1000 % 0x40, 0x80 + c.toNat / 0x40 % 0x40,
      0x80 + c.toNat % 0x40]

/-- The UTF-8 encoding of a sequence of characters. -/
def utf8Chars (cs : List Char) : GoString := cs.flatMap utf8EncodeChar

/-- The Go string with the given text. -/
def utf8 (s : String) : GoString := utf8Chars s.data

/-- The function `utf8.DecodeRuneInString` on a string that is not empty: the
character the string starts with and the bytes after it, or, when the string does
not start with the UTF-8 encoding of a character, no character (Go reports
`RuneError` with width 1) and the bytes after the first one. -/
def decodeRune : List Nat → Option Char × List Nat
  | [] => (none, [])
  | b0 :: rest =>
    if b0 < 0x80 then (some (Char.ofNat b0), rest)
    else if b0 < 0xC2 then (none, rest)
    else if b0 < 0xE0 then
      match rest with
      | b1 :: rest1 =>
        if 0x80 ≤ b1 ∧ b1 ≤ 0xBF then
          (some (Char.ofNat (b0 % 0x20 * 0x40 + b1 % 0x40)), rest1)
        else (none, rest)
      | [] => (none, rest)
    else if b0 < 0xF0 then
      match rest with
      | b1 :: b2 :: rest2 =>
        if (if b0 = 0xE0 then 0xA0 else 0x80) ≤ b1 ∧ b1 ≤ (if b0 = 0xED then 0x9F else 0xBF) ∧
            0x80 ≤ b2 ∧ b2 ≤ 0xBF then
          (some (Char.ofNat (b0 % 0x10 * 0x1000 + b1 % 0x40 * 0x40 + b2 % 0x40)), rest2)
        else (none, rest)
      | _ => (none, rest)
    else if b0 < 0xF5 then
      match rest with
      | b1 :: b2 :: b3 :: rest3 =>
        if (if b0 = 0xF0 then 0x90 else 0x80) ≤ b1 ∧ b1 ≤ (if b0 = 0xF4 then 0x8F else 0xBF) ∧
            0x80 ≤ b2 ∧ b2 ≤ 0xBF ∧ 0x80 ≤ b3 ∧ b3 ≤ 0xBF then
          (some (Char.ofNat (b0 % 0x08 * 0x40000 + b1 % 0x40 * 0x1000 + b2 % 0x40 * 0x40 +
            b3 % 0x40)), rest3)
        else (none, rest)
      | _ => (none, rest)
    else (none, rest)

/-- The string cut into characters and bytes that belong to no character, by
repeated `decodeRune`; the first argument bounds the number of steps. -/
def runesAux : Nat → List Nat → List (Option Char)
  | 0, _ => []
  | _ + 1, [] => []
  | fuel + 1, b :: bs => (decodeRune (b :: bs)).1 :: runesAux fuel (decodeRune (b :: bs)).2

/-- The characters of a Go string, with `none` for every byte that belongs to no
character. Each step takes at least one byte, so the length bounds the steps. -/
def runes (s : GoString) : List (Option Char) := runesAux s.length s

/-- The character U+FFFD, `unicode.ReplacementChar`. -/
def replacementChar : Char := Char.ofNat 0xFFFD

/-- The string with every byte that belongs to no character replaced by U+FFFD. -/
def replaceInvalid (s : GoString) : GoString :=
  utf8Chars ((runes s).map fun u => u.getD replacementChar)

/-- Types that `organization.go` uses and that are declared elsewhere: `Team`,
`Member` and `Link` in other files of the package, `Time` in package `time`. The
file only stores and passes on values of these types. -/
structure Decls where
  Team : Type
  Member : Type
  Link : Type
  Time : Type

/-! ## Declarations of `organization.go` -/

/-- The constant `OrgEndpointName`. -/
def OrgEndpointName : String := "organizations"

/-- The struct `Quota`. -/
structure Quota where
  ProjectLimit : Int
  MaxRate : Int
deriving DecidableEq, Repr

/-- The struct `Organization`; the eight pointer fields are optional. -/
structure Organization (E : Decls) where
  PendingAccessRequest : Option Int
  Slug : Option String
  Name : GoString
  Quota : Option Quota
  DateCreated : Option E.Time
  Teams : Option (Slice E.Team)
  ID : Option String
  IsEarlyAdopter : Option Bool
  Features : Option (Slice String)

/-- The struct `Meta`. -/
structure Meta where
  ResourceType : String
deriving DecidableEq, Repr

/-- The struct `SCIMMember`. -/
structure SCIMMember where
  Value : String
  Display : String
deriving DecidableEq, Repr

/-- The struct `Resource`. -/
structure Resource where
  Schemas : Slice String
  ID : String
  DisplayName : String
  Meta : Meta
  Members : Slice SCIMMember
deriving DecidableEq, Repr

/-- The struct `SCIMResource`. -/
structure SCIMResource where
  Schemas : Slice String
  TotalResults : Int
  StartIndex : Int
  ItemsPerPage : Int
  Resources : Slice Resource
deriving DecidableEq, Repr

/-- The zero value of `Organization` (`var org Organization`): empty name, every
pointer nil. -/
def Organization.zero (E : Decls) : Organization E :=
  { PendingAccessRequest := none, Slug := none, Name := [], Quota := none,
    DateCreated := none, Teams := none, ID := none, IsEarlyAdopter := none,
    Features := none }

/-- The composite literal `Organization{Name: orgname}`: fields that are not named
take their zero value. -/
def Organization.withName (E : Decls) (orgname : GoString) : Organization E :=
  { Organization.zero E with Name := orgname }

/-- An organization with the empty name whose optional fields are all set and point
to zero values: 0, the empty string, a quota of 0 and 0, the time `t`, an empty list
of teams, false, an empty list of features. -/
def Organization.zeroValues (E : Decls) (t : E.Time) : Organization E :=
  { PendingAccessRequest := some 0, Slug := some "", Name := [],
    Quota := some { ProjectLimit := 0, MaxRate := 0 }, DateCreated := some t,
    Teams := some (.mk []), ID := some "", IsEarlyAdopter := some false,
    Features := some (.mk []) }

/-- The composite literal `SCIMResource{}`. -/
def SCIMResource.zero : SCIMResource :=
  { Schemas := .nil, TotalResults := 0, StartIndex := 0, ItemsPerPage := 0,
    Resources := .nil }

/-! ## `fmt.Sprintf` -/

/-- The text `fmt` prints for operands that no verb consumed:
`%!(EXTRA string=a, string=b)`. -/
def sprintfExtra (args : List String) : List Char :=
  "%!(EXTRA ".data ++ (", ".intercalate (args.map fun a => "string=" ++ a)).data ++ [')']

/-- Expansion of a format over string operands. Only what `organization.go` uses is
interpreted: literal text and the verb `%s`, which prints the next operand as it
is, without escaping. A `%s` with no operand left prints `%!s(MISSING)`. A percent
sign that does not start `%s` is kept as text, which is not what `fmt` does with it;
no format of this file has one. -/
def sprintfAux : List Char → List String → List Char
  | [], [] => []
  | [], a :: args => sprintfExtra (a :: args)
  | '%' :: 's' :: rest, a :: args => a.data ++ sprintfAux rest args
  | '%' :: 's' :: rest, [] => "%!s(MISSING)".data ++ sprintfAux rest []
  | c :: rest, args => c :: sprintfAux rest args

/-- The function `fmt.Sprintf`, for string operands. -/
def Sprintf (format : String) (args : List String) : String :=
  String.mk (sprintfAux format.data args)

/-! ## The request helpers and the monad of a method call -/

/-- The dynamic type behind an `interface{}` argument of the helpers: nil, or a
pointer to a variable of one of the types this file passes. -/
inductive Kind where
  | none
  | organization
  | organizations
  | teams
  | members
  | scim
deriving DecidableEq, Repr

/-- The type of the variable an argument of the given kind points to. -/
def Kind.type (E : Decls) : Kind → Type
  | .none => Unit
  | .organization => Organization E
  | .organizations => Slice (Organization E)
  | .teams => Slice E.Team
  | .members => Slice E.Member
  | .scim => SCIMResource

/-- An `interface{}` argument: its kind and the value the pointer points to. -/
structure Arg (E : Decls) where
  kind : Kind
  val : kind.type E

/-- The argument `nil`. -/
def Arg.nil (E : Decls) : Arg E := ⟨.none, ()⟩

/-- The argument `&org` for an organization variable holding `o`. -/
def Arg.org {E : Decls} (o : Organization E) : Arg E := ⟨.organization, o⟩

/-- The receiver `c *Client`, as far as `organization.go` uses it: the two request
helpers. A helper gets the state of the outside world, the method, the path, the
out-pointer (its kind and the value its variable holds at the call) and the body; it
gives back the value it leaves in the out variable, its results, and the new state
of the world. -/
structure Client (E : Decls) (σ : Type) where
  do_ : σ → String → String → (k : Kind) → k.type E → Arg E → (k.type E × Error × σ)
  doWithPagination : σ → String → String → (k : Kind) → k.type E → Arg E →
    (k.type E × Option E.Link × Error × σ)

/-- One helper call, as recorded in the trace. -/
structure Call (E : Decls) where
  paginated : Bool
  method : String
  path : String
  out : Arg E
  body : Arg E

/-- The state a method call runs in: the outside world and the helper calls made so
far, oldest first. -/
structure Run (E : Decls) (σ : Type) where
  world : σ
  calls : List (Call E)

/-- Run-time panics. -/
inductive GoPanic where
  | nilPointerDereference
deriving DecidableEq, Repr

/-- A computation of a method body: from a state to either a returned value or a
panic, and the state reached. -/
def Go (E : Decls) (σ : Type) (α : Type) : Type :=
  Run E σ → Except GoPanic α × Run E σ

instance (E : Decls) (σ : Type) : Monad (Go E σ) where
  pure a := fun r => (.ok a, r)
  bind m f := fun r =>
    match m r with
    | (.ok a, r1) => f a r1
    | (.error p, r1) => (.error p, r1)

/-- The pointer indirection `*p`: panics on the nil pointer. -/
def deref {E : Decls} {σ α : Type} (p : Option α) : Go E σ α := fun r =>
  match p with
  | some v => (.ok v, r)
  | none => (.error .nilPointerDereference, r)

/-- The call `c.do(method, path, out, body)`: runs the helper on the world and
records the call. Gives the value left in the out variable and the error. -/
def Client.callDo {E : Decls} {σ : Type} (c : Client E σ) (method path : String)
    (k : Kind) (out : k.type E) (body : Arg E) : Go E σ (k.type E × Error) := fun r =>
  let res := c.do_ r.world method path k out body
  (.ok (res.1, res.2.1),
    { world := res.2.2, calls := r.calls ++ [⟨false, method, path, ⟨k, out⟩, body⟩] })

/-- The call `c.doWithPagination(method, path, out, body)`. Gives the value left in
the out variable, the link and the error. -/
def Client.callDoWithPagination {E : Decls} {σ : Type} (c : Client E σ)
    (method path : String) (k : Kind) (out : k.type E) (body : Arg E) :
    Go E σ (k.type E × Option E.Link × Error) := fun r =>
  let res := c.doWithPagination r.world method path k out body
  (.ok (res.1, res.2.1, res.2.2.1),
    { world := res.2.2.2, calls := r.calls ++ [⟨true, method, path, ⟨k, out⟩, body⟩] })

/-! ## The methods of `organization.go` -/

section Methods

variable {E : Decls} {σ : Type}

/-- The method `GetOrganization`. -/
def GetOrganization (c : Client E σ) (orgslug : String) : Go E σ (Organization E × Error) := do
  let org := Organization.zero E
  let (org, err) ← c.callDo "GET" (Sprintf "%s/%s" [OrgEndpointName, orgslug]) .organization org
    (Arg.nil E)
  return (org, err)

/-- The method `GetOrganizations`. -/
def GetOrganizations (c : Client E σ) :
    Go E σ (Slice (Organization E) × Option E.Link × Error) := do
  let orgs : Slice (Organization E) := .mk []
  let (orgs, link, err) ← c.callDoWithPagination "GET" OrgEndpointName .organizations orgs
    (Arg.nil E)
  return (orgs, link, err)

/-- The method `CreateOrganization`. -/
def CreateOrganization (c : Client E σ) (orgname : GoString) :
    Go E σ (Organization E × Error) := do
  let org := Organization.zero E
  let orgreq := Organization.withName E orgname
  let (org, err) ← c.callDo "POST" OrgEndpointName .organization org (Arg.org orgreq)
  return (org, err)

/-- The method `UpdateOrganization`. The parameter `org` is the method's own copy
of the caller's value; `&org` is passed both as out-pointer and as body. The only
result is the error. What `do` writes through the pointers that the copy shares with
the caller's value is not represented. -/
def UpdateOrganization (c : Client E σ) (org : Organization E) : Go E σ Error := do
  let slug ← deref org.Slug
  let (_, err) ← c.callDo "PUT" (Sprintf "%s/%s" [OrgEndpointName, slug]) .organization org
    (Arg.org org)
  return err

/-- The method `DeleteOrganization`. -/
def DeleteOrganization (c : Client E σ) (org : Organization E) : Go E σ Error := do
  let slug ← deref org.Slug
  let (_, err) ← c.callDo "DELETE" (Sprintf "%s/%s" [OrgEndpointName, slug]) .none ()
    (Arg.nil E)
  return err

/-- The method `GetOrganizationTeams`. -/
def GetOrganizationTeams (c : Client E σ) (o : Organization E) :
    Go E σ (Slice E.Team × Error) := do
  let teams : Slice E.Team := .mk []
  let slug ← deref o.Slug
  let (teams, err) ← c.callDo "GET" (Sprintf "organizations/%s/teams" [slug]) .teams teams
    (Arg.nil E)
  return (teams, err)

/-- The method `GetOrganizationMembers`. -/
def GetOrganizationMembers (c : Client E σ) (o : Organization E) :
    Go E σ (Slice E.Member × Error) := do
  let members : Slice E.Member := .mk []
  let slug ← deref o.Slug
  let (members, err) ← c.callDo "GET" (Sprintf "organizations/%s/members" [slug]) .members
    members (Arg.nil E)
  return (members, err)

/-- The method `GetOrganizationTeamsSCIM`. -/
def GetOrganizationTeamsSCIM (c : Client E σ) (o : Organization E) :
    Go E σ (SCIMResource × Error) := do
  let scimResponse := SCIMResource.zero
  let slug ← deref o.Slug
  let (scimResponse, err) ← c.callDo "GET" (Sprintf "organizations/%s/scim/v2/Groups" [slug])
    .scim scimResponse (Arg.nil E)
  return (scimResponse, err)

end Methods

/-! ## `encoding/json`, as far as the struct tags of `Organization` need it

The package `encoding/json` belongs to the Go standard library. What follows is its
documented behaviour: how a struct is encoded to an object under its field tags
(`omitempty` drops a field whose value is empty, the first value that fails to encode
makes the whole encoding fail), how a string becomes a string literal and a string
literal a string again, and how an object is decoded into a struct (each member is
stored in the field whose tag name it matches, an unknown member is skipped). A
document is kept as its syntax tree, with every string value as the literal that is
written in the text; `Json.render` gives the text. Parsing a text into the tree is
not part of the development.
-/

/-- A JSON document. A string value is the literal as it stands in the text, with
its quotes and escapes. Numbers are restricted to the integers: the numeric fields of
this file are of type `int`. The members of an object keep their order. -/
inductive Json where
  | null
  | bool (b : Bool)
  | num (n : Int)
  | str (literal : List Char)
  | arr (elems : List Json)
  | obj (members : List (String × Json))

/-- The keys of an object, in order; other documents have none. -/
def Json.keys : Json → List String
  | .obj members => members.map Prod.fst
  | _ => []

/-- A lower-case hexadecimal digit. -/
def hexDigit (n : Nat) : Char :=
  if n < 10 then Char.ofNat (48 + n) else Char.ofNat (87 + n)

/-- How the encoder writes one character inside a string literal (with HTML
escaping, as `json.Marshal` does; the short forms for backspace and form feed are
those of Go 1.22 and later). -/
def escapeChar (c : Char) : List Char :=
  if c = Char.ofNat 34 ∨ c = Char.ofNat 92 then [Char.ofNat 92, c]
  else if c = Char.ofNat 8 then [Char.ofNat 92, 'b']
  else if c = Char.ofNat 12 then [Char.ofNat 92, 'f']
  else if c = Char.ofNat 10 then [Char.ofNat 92, 'n']
  else if c = Char.ofNat 13 then [Char.ofNat 92, 'r']
  else if c = Char.ofNat 9 then [Char.ofNat 92, 't']
  else if c.toNat < 32 ∨ c = '<' ∨ c = '>' ∨ c = '&' then
    [Char.ofNat 92, 'u', '0', '0', hexDigit (c.toNat / 16), hexDigit (c.toNat % 16)]
  else if c = Char.ofNat 8232 then [Char.ofNat 92, 'u', '2', '0', '2', '8']
  else if c = Char.ofNat 8233 then [Char.ofNat 92, 'u', '2', '0', '2', '9']
  else [c]

/-- How the encoder writes one step of `decodeRune`: a character by `escapeChar`, a
byte that belongs to no character as the six characters of the escape of U+FFFD. -/
def escapeRune : Option Char → List Char
  | none => [Char.ofNat 92, 'u', 'f', 'f', 'f', 'd']
  | some c => escapeChar c

/-- The string literal the encoder writes for a Go string. -/
def quote (s : GoString) : List Char :=
  Char.ofNat 34 :: ((runes s).flatMap escapeRune ++ [Char.ofNat 34])

/-- The value of a hexadecimal digit. -/
def hexValue (c : Char) : Option Nat :=
  if 48 ≤ c.toNat ∧ c.toNat ≤ 57 then some (c.toNat - 48)
  else if 97 ≤ c.toNat ∧ c.toNat ≤ 102 then some (c.toNat - 87)
  else if 65 ≤ c.toNat ∧ c.toNat ≤ 70 then some (c.toNat - 55)
  else none

/-- The decoder's `getu4`: the number of an escape `\uXXXX` the text starts with, and
the text after it. -/
def getu4 : List Char → Option (Nat × List Char)
  | b :: u :: h1 :: h2 :: h3 :: h4 :: rest =>
    if b = Char.ofNat 92 ∧ u = 'u' then
      match hexValue h1, hexValue h2, hexValue h3, hexValue h4 with
      | some x1, some x2, some x3, some x4 => some (((x1 * 16 + x2) * 16 + x3) * 16 + x4, rest)
      | _, _, _, _ => none
    else none
  | _ => none

/-- The character a one-letter escape stands for. -/
def simpleEscape (e : Char) : Option Char :=
  if e = Char.ofNat 34 ∨ e = Char.ofNat 92 ∨ e = '/' then some e
  else if e = 'b' then some (Char.ofNat 8)
  else if e = 'f' then some (Char.ofNat 12)
  else if e = 'n' then some (Char.ofNat 10)
  else if e = 'r' then some (Char.ofNat 13)
  else if e = 't' then some (Char.ofNat 9)
  else none

/-- The characters of a string literal after its opening quote, up to the closing
quote, which has to end the literal. An escape `\uXXXX` of a surrogate is joined with
a following low surrogate and is U+FFFD otherwise. The first argument bounds the
number of steps. -/
def unquoteAux : Nat → List Char → Option (List Char)
  | 0, _ => none
  | _ + 1, [] => none
  | fuel + 1, c :: rest =>
    if c = Char.ofNat 34 then (if rest = [] then some [] else none)
    else if c = Char.ofNat 92 then
      match rest with
      | [] => none
      | e :: rest1 =>
        if e = 'u' then
          match getu4 (c :: rest) with
          | none => none
          | some (v, rest2) =>
            if 0xD800 ≤ v ∧ v < 0xE000 then
              match getu4 rest2 with
              | none => (unquoteAux fuel rest2).map (replacementChar :: ·)
              | some (w, rest3) =>
                if v < 0xDC00 ∧ 0xDC00 ≤ w ∧ w < 0xE000 then
                  (unquoteAux fuel rest3).map
                    (Char.ofNat ((v - 0xD800) * 0x400 + (w - 0xDC00) + 0x10000) :: ·)
                else (unquoteAux fuel rest2).map (replacementChar :: ·)
            else (unquoteAux fuel rest2).map (Char.ofNat v :: ·)
        else
          match simpleEscape e with
          | none => none
          | some d => (unquoteAux fuel rest1).map (d :: ·)
    else if c.toNat < 0x20 then none
    else (unquoteAux fuel rest).map (c :: ·)

/-- The decoder's `unquote`: the characters a string literal stands for, if it is
one. Each step takes at least one character, so the length bounds the steps. -/
def unquote : List Char → Option (List Char)
  | [] => none
  | c :: body => if c = Char.ofNat 34 then unquoteAux body.length body else none

/-- The Go string a document stands for when it is a string literal. -/
def Json.stringValue : Json → Option GoString
  | .str literal => (unquote literal).map utf8Chars
  | _ => none

mutual
/-- The compact text of a document, as `json.Marshal` writes it. -/
def Json.render : Json → List Char
  | .null => ['n', 'u', 'l', 'l']
  | .bool true => ['t', 'r', 'u', 'e']
  | .bool false => ['f', 'a', 'l', 's', 'e']
  | .num n => (toString n).data
  | .str literal => literal
  | .arr elems => '[' :: (renderElems elems ++ [']'])
  | .obj members => '{' :: (renderMembers members ++ ['}'])
/-- The elements of an array, separated by commas. -/
def renderElems : List Json → List Char
  | [] => []
  | [x] => x.render
  | x :: y :: rest => x.render ++ ',' :: renderElems (y :: rest)
/-- The members of an object, separated by commas. -/
def renderMembers : List (String × Json) → List Char
  | [] => []
  | [(k, v)] => quote (utf8 k) ++ ':' :: v.render
  | (k, v) :: m :: rest =>
    quote (utf8 k) ++ ':' :: (v.render ++ ',' :: renderMembers (m :: rest))
end

/-- The text of a document as a string. -/
def Json.text (j : Json) : String := String.mk j.render

/-- The error `*json.UnmarshalTypeError` for a document that does not fit the Go type
it is decoded into. -/
def unmarshalTypeError (value goType : String) : GoError :=
  ⟨"json: cannot unmarshal " ++ value ++ " into Go value of type " ++ goType⟩

/-- The error `*json.UnmarshalTypeError` for a member that does not fit the type of
its struct field. -/
def unmarshalFieldError (value field goType : String) : GoError :=
  ⟨"json: cannot unmarshal " ++ value ++ " into Go struct field " ++ field ++ " of type " ++
    goType⟩

/-- The kind of a document, as error messages name it. -/
def Json.kindName : Json → String
  | .null => "null"
  | .bool _ => "bool"
  | .num _ => "number"
  | .str _ => "string"
  | .arr _ => "array"
  | .obj _ => "object"

/-- The encoders of the two types declared elsewhere. Either may fail (a `MarshalJSON`
that returns an error), and then `json.Marshal` fails. -/
structure JSONEncoders (E : Decls) where
  encTime : E.Time → Except GoError Json
  encTeam : E.Team → Except GoError Json

/-- The parts of the decoder that are neither fixed by the struct tags of
`Organization` nor spelled out here: the case-insensitive comparison of member names,
and the decoders of the eight optional fields (from the JSON value and the pointer
the field holds, to the pointer it holds afterwards and a possible type error). -/
structure JSONDecoders (E : Decls) where
  equalFold : String → String → Bool
  decPendingAccessRequest : Json → Option Int → Option Int × Error
  decSlug : Json → Option String → Option String × Error
  decQuota : Json → Option Quota → Option Quota × Error
  decDateCreated : Json → Option E.Time → Option E.Time × Error
  decTeams : Json → Option (Slice E.Team) → Option (Slice E.Team) × Error
  decID : Json → Option String → Option String × Error
  decIsEarlyAdopter : Json → Option Bool → Option Bool × Error
  decFeatures : Json → Option (Slice String) → Option (Slice String) × Error

/-- Whether an encoding succeeded. -/
def succeeds {α : Type} : Except GoError α → Bool
  | .ok _ => true
  | .error _ => false

/-- Encoding of a pointer: the nil pointer is `null`, another one is encoded as the
value it points to. -/
def encPtr {α : Type} (enc : α → Json) : Option α → Json
  | none => .null
  | some v => enc v

/-- Encoding of a slice: the nil slice is `null`, another one is an array. -/
def encSlice {α : Type} (enc : α → Json) : Slice α → Json
  | .nil => .null
  | .mk xs => .arr (xs.map enc)

/-- Encoding of the elements of a slice by an encoder that may fail; the first
failure is the result. -/
def encodeAll {α : Type} (enc : α → Except GoError Json) : List α → Except GoError (List Json)
  | [] => .ok []
  | x :: xs =>
    match enc x with
    | .error e => .error e
    | .ok j =>
      match encodeAll enc xs with
      | .error e => .error e
      | .ok js => .ok (j :: js)

/-- Encoding of a slice by an encoder that may fail. -/
def encSliceM {α : Type} (enc : α → Except GoError Json) : Slice α → Except GoError Json
  | .nil => .ok .null
  | .mk xs =>
    match encodeAll enc xs with
    | .error e => .error e
    | .ok js => .ok (.arr js)

/-- Encoding of a string kept as text. -/
def encText (s : String) : Json := .str (quote (utf8 s))

/-- Encoding of a `Quota` under its tags `projectLimit` and `maxRate`. -/
def Quota.encode (q : Quota) : Json :=
  .obj [("projectLimit", .num q.ProjectLimit), ("maxRate", .num q.MaxRate)]

/-- The fields of `Organization`, in the order of the declaration. -/
inductive OrgField where
  | PendingAccessRequest
  | Slug
  | Name
  | Quota
  | DateCreated
  | Teams
  | ID
  | IsEarlyAdopter
  | Features
deriving DecidableEq, Repr

/-- All fields, in the order of the declaration. -/
def OrgField.all : List OrgField :=
  [.PendingAccessRequest, .Slug, .Name, .Quota, .DateCreated, .Teams, .ID, .IsEarlyAdopter,
    .Features]

/-- The name in the `json` tag of a field. -/
def OrgField.tagName : OrgField → String
  | .PendingAccessRequest => "pendingAccessRequests"
  | .Slug => "slug"
  | .Name => "name"
  | .Quota => "quota"
  | .DateCreated => "dateCreated"
  | .Teams => "teams"
  | .ID => "id"
  | .IsEarlyAdopter => "isEarlyAdopter"
  | .Features => "features"

/-- Whether the `json` tag of a field carries the option `omitempty`. -/
def OrgField.omitempty : OrgField → Bool
  | .Name => false
  | _ => true

section Codec

variable {E : Decls}

/-- Whether the value of a field is empty in the sense of `omitempty`: a nil pointer,
or a string of length zero. -/
def Organization.isEmptyValue (o : Organization E) : OrgField → Bool
  | .PendingAccessRequest => o.PendingAccessRequest.isNone
  | .Slug => o.Slug.isNone
  | .Name => o.Name.length == 0
  | .Quota => o.Quota.isNone
  | .DateCreated => o.DateCreated.isNone
  | .Teams => o.Teams.isNone
  | .ID => o.ID.isNone
  | .IsEarlyAdopter => o.IsEarlyAdopter.isNone
  | .Features => o.Features.isNone

/-- The encoding of the value of a field; only a time and a team can fail to
encode. -/
def Organization.encodeField (L : JSONEncoders E) (o : Organization E) :
    OrgField → Except GoError Json
  | .PendingAccessRequest => .ok (encPtr .num o.PendingAccessRequest)
  | .Slug => .ok (encPtr encText o.Slug)
  | .Name => .ok (.str (quote o.Name))
  | .Quota => .ok (encPtr Quota.encode o.Quota)
  | .DateCreated =>
    match o.DateCreated with
    | none => .ok .null
    | some t => L.encTime t
  | .Teams =>
    match o.Teams with
    | none => .ok .null
    | some ts => encSliceM L.encTeam ts
  | .ID => .ok (encPtr encText o.ID)
  | .IsEarlyAdopter => .ok (encPtr .bool o.IsEarlyAdopter)
  | .Features => .ok (encPtr (encSlice encText) o.Features)

/-- The members the struct encoder writes for the given fields, in order: a field is
left out when its tag says `omitempty` and its value is empty; the first field that
fails to encode makes the encoding fail. -/
def Organization.members (L : JSONEncoders E) (o : Organization E) :
    List OrgField → Except GoError (List (String × Json))
  | [] => .ok []
  | f :: fs =>
    if f.omitempty && o.isEmptyValue f then o.members L fs
    else
      match o.encodeField L f with
      | .error e => .error e
      | .ok v =>
        match o.members L fs with
        | .error e => .error e
        | .ok ms => .ok ((f.tagName, v) :: ms)

/-- The result of `json.Marshal` for an `Organization`: the document, or the error of
the first value that fails to encode. -/
def Organization.Marshal (L : JSONEncoders E) (o : Organization E) : Except GoError Json :=
  match o.members L OrgField.all with
  | .error e => .error e
  | .ok ms => .ok (.obj ms)

/-- Whether the values that can fail to encode do encode: the time, and the teams. -/
def Organization.encodes (L : JSONEncoders E) (o : Organization E) : Bool :=
  (match o.DateCreated with
    | none => true
    | some t => succeeds (L.encTime t)) &&
  (match o.Teams with
    | none => true
    | some ts => succeeds (encSliceM L.encTeam ts))

/-- The field a member name selects: the field whose tag name is exactly the key, and
failing that the first field whose tag name equals it up to case. -/
def findField (D : JSONDecoders E) (key : String) : Option OrgField :=
  match OrgField.all.find? fun f => f.tagName == key with
  | some f => some f
  | none => OrgField.all.find? fun f => D.equalFold f.tagName key

/-- Decoding of a JSON value into the field `Name`, of type `string`: a string literal
is stored as the string it stands for, `null` leaves the field as it is, anything else
is a type error and leaves the field as it is. (A string value that is no literal
cannot come out of a text that parses; it is reported as an error.) -/
def decString (v : Json) (cur : GoString) : GoString × Error :=
  match v with
  | .str literal =>
    match unquote literal with
    | some cs => (utf8Chars cs, none)
    | none => (cur, some ⟨"json: invalid string literal"⟩)
  | .null => (cur, none)
  | _ => (cur, some (unmarshalFieldError v.kindName "Organization.name" "string"))

/-- Decoding of one value into the given field. -/
def Organization.decodeField (D : JSONDecoders E) (o : Organization E) (f : OrgField)
    (v : Json) : Organization E × Error :=
  match f with
  | .PendingAccessRequest =>
    let r := D.decPendingAccessRequest v o.PendingAccessRequest
    ({ o with PendingAccessRequest := r.1 }, r.2)
  | .Slug => let r := D.decSlug v o.Slug; ({ o with Slug := r.1 }, r.2)
  | .Name => let r := decString v o.Name; ({ o with Name := r.1 }, r.2)
  | .Quota => let r := D.decQuota v o.Quota; ({ o with Quota := r.1 }, r.2)
  | .DateCreated => let r := D.decDateCreated v o.DateCreated; ({ o with DateCreated := r.1 }, r.2)
  | .Teams => let r := D.decTeams v o.Teams; ({ o with Teams := r.1 }, r.2)
  | .ID => let r := D.decID v o.ID; ({ o with ID := r.1 }, r.2)
  | .IsEarlyAdopter =>
    let r := D.decIsEarlyAdopter v o.IsEarlyAdopter
    ({ o with IsEarlyAdopter := r.1 }, r.2)
  | .Features => let r := D.decFeatures v o.Features; ({ o with Features := r.1 }, r.2)

/-- Decoding of the members of an object, in order, into an organization. A member
that selects no field is skipped. After a type error decoding goes on; the first
error is the one reported. -/
def Organization.decodeMembers (D : JSONDecoders E) :
    List (String × Json) → Organization E → Organization E × Error
  | [], o => (o, none)
  | (key, v) :: rest, o =>
    match findField D key with
    | none => Organization.decodeMembers D rest o
    | some f =>
      let r := o.decodeField D f v
      let r1 := Organization.decodeMembers D rest r.1
      (r1.1, r.2.orElse fun _ => r1.2)

/-- The effect of `json.Unmarshal(data, &o)` for the document `data` stands for: an
object is decoded member by member, `null` changes nothing, any other document is a
type error. Gives the organization the variable holds afterwards and the error. -/
def Organization.Unmarshal (D : JSONDecoders E) (data : Json) (o : Organization E) :
    Organization E × Error :=
  match data with
  | .obj members => Organization.decodeMembers D members o
  | .null => (o, none)
  | _ => (o, some (unmarshalTypeError data.kindName "sentry.Organization"))

/-- Whether a field is present: the name always is, an optional field is when its
pointer is not nil. -/
def Organization.isSet (o : Organization E) : OrgField → Bool
  | .PendingAccessRequest => o.PendingAccessRequest.isSome
  | .Slug => o.Slug.isSome
  | .Name => true
  | .Quota => o.Quota.isSome
  | .DateCreated => o.DateCreated.isSome
  | .Teams => o.Teams.isSome
  | .ID => o.ID.isSome
  | .IsEarlyAdopter => o.IsEarlyAdopter.isSome
  | .Features => o.Features.isSome

end Codec

/-! ## Observations on a method call -/

section Observations

variable {E : Decls} {σ α : Type}

/-- The paths of the helper calls a computation makes, in order, when it starts in
the world `w` with an empty trace. -/
def requestPaths (m : Go E σ α) (w : σ) : List String :=
  (m ⟨w, []⟩).2.calls.map Call.path

/-- The path expression of `GetOrganization`, `UpdateOrganization` and
`DeleteOrganization`. -/
def orgPath (slug : String) : String := Sprintf "%s/%s" [OrgEndpointName, slug]

/-- The path expression of `GetOrganizationTeams`. -/
def teamsPath (slug : String) : String := Sprintf "organizations/%s/teams" [slug]

/-- The path expression of `GetOrganizationMembers`. -/
def membersPath (slug : String) : String := Sprintf "organizations/%s/members" [slug]

/-- The path expression of `GetOrganizationTeamsSCIM`. -/
def scimPath (slug : String) : String := Sprintf "organizations/%s/scim/v2/Groups" [slug]

end Observations

/-! ## Concrete clients -/

/-- A pagination link for concrete runs: the numbers of the previous and of the next
page, where there is one. -/
structure PageLink where
  previous : Option Nat
  next : Option Nat
deriving DecidableEq, Repr

/-- A time for concrete runs: a date and a time of day in UTC, to the second. -/
structure ClockTime where
  year : Int
  month : Nat
  day : Nat
  hour : Nat
  minute : Nat
  second : Nat
deriving DecidableEq, Repr

/-- A number in decimal, filled with zeros on the left up to the given width. -/
def padded (width n : Nat) : String :=
  String.mk (List.replicate (width - (toString n).length) '0') ++ toString n

/-- The method `MarshalJSON` of `*time.Time` as `json.Marshal` calls it, on the times
of `ClockTime`: a year outside 0..9999 is an error, any other time is the string
literal of its RFC 3339 form. -/
def ClockTime.MarshalJSON (t : ClockTime) : Except GoError Json :=
  if t.year < 0 ∨ 9999 < t.year then
    .error ⟨"json: error calling MarshalJSON for type *time.Time: " ++
      "Time.MarshalJSON: year outside of range [0,9999]"⟩
  else
    .ok (encText (padded 4 t.year.toNat ++ "-" ++ padded 2 t.month ++ "-" ++ padded 2 t.day ++
      "T" ++ padded 2 t.hour ++ ":" ++ padded 2 t.minute ++ ":" ++ padded 2 t.second ++ "Z"))

/-- The declarations used in concrete runs: a team and a member are given by a name,
a link is a `PageLink`, a time is a `ClockTime`. -/
def Fixture : Decls :=
  { Team := String, Member := String, Link := PageLink, Time := ClockTime }

/-- An organization with a name and a slug and nothing else. -/
def namedOrg (name slug : String) : Organization Fixture :=
  { Organization.zero Fixture with Name := utf8 name, Slug := some slug }

/-- An organization with a name and a creation time and nothing else. -/
def datedOrg (name : String) (created : ClockTime) : Organization Fixture :=
  { Organization.zero Fixture with Name := utf8 name, DateCreated := some created }

/-- A SCIM listing with two groups, the first with two members. -/
def scimFixture : SCIMResource :=
  { Schemas := .mk ["urn:ietf:params:scim:api:messages:2.0:ListResponse"],
    TotalResults := 2, StartIndex := 1, ItemsPerPage := 2,
    Resources := .mk [
      { Schemas := .mk ["urn:ietf:params:scim:schemas:core:2.0:Group"], ID := "1",
        DisplayName := "alpha", Meta := ⟨"Group"⟩,
        Members := .mk [⟨"10", "ann@example.com"⟩, ⟨"11", "bob@example.com"⟩] },
      { Schemas := .mk ["urn:ietf:params:scim:schemas:core:2.0:Group"], ID := "2",
        DisplayName := "beta", Meta := ⟨"Group"⟩, Members := .nil }] }

/-- What a server holding the organization `view` leaves in an out variable. -/
def serverAnswer (view : Organization Fixture) : (k : Kind) → k.type Fixture → k.type Fixture
  | .none, _ => ()
  | .organization, _ => view
  | .organizations, _ => .mk [view]
  | .teams, _ => .mk ["team-a", "team-b"]
  | .members, _ => .mk ["ann", "bob"]
  | .scim, _ => scimFixture

/-- A client whose helpers always succeed: the server answers with its view of the
organization (or with fixed listings), and the world counts the requests. -/
def servingClient (view : Organization Fixture) : Client Fixture Nat where
  do_ := fun w _ _ k out _ => (serverAnswer view k out, none, w + 1)
  doWithPagination := fun w _ _ k out _ =>
    (serverAnswer view k out, some ⟨none, none⟩, none, w + 1)

/-- A client whose helpers always fail and leave the out variable as it was. -/
def failingClient : Client Fixture Nat where
  do_ := fun w _ _ _ out _ => (out, some ⟨"503 Service Unavailable"⟩, w + 1)
  doWithPagination := fun w _ _ _ out _ => (out, none, some ⟨"503 Service Unavailable"⟩, w + 1)

/-- Modelled from the spec: the helper `doWithPagination`, which is declared in
another file of the package, against a backend that serves its organizations in
pages. By the spec the helper "performs one request/response cycle", "unmarshaling
the response into outPtr", and "returns pagination cursor metadata". The world is
the list of pages of the backend. A `GET` of the list path is answered with the first
page and a link that names the next page when there is one; any other request fails
and leaves the out variable as it was. -/
def pagedDoWithPagination (pages : List (List (Organization Fixture))) (method path : String) :
    (k : Kind) → k.type Fixture → k.type Fixture × Option PageLink × Error
  | .organizations, out =>
    if method = "GET" ∧ path = "organizations" then
      (.mk (pages.headD []), some ⟨none, if 1 < pages.length then some 1 else none⟩, none)
    else (out, none, some ⟨"404 Not Found"⟩)
  | _, out => (out, none, some ⟨"404 Not Found"⟩)

/-- Modelled from the spec: a client over the paged backend; its `do` performs no
request that this development uses. -/
def pagedClient : Client Fixture (List (List (Organization Fixture))) where
  do_ := fun w _ _ _ out _ => (out, some ⟨"404 Not Found"⟩, w)
  doWithPagination := fun w method path k out _ =>
    let res := pagedDoWithPagination w method path k out
    (res.1, res.2.1, res.2.2, w)

/-! ## UTF-8 and string literals -/

/-- The code points of characters: below the surrogates, or above them and below
0x110000. -/
theorem char_range (c : Char) :
    c.toNat < 0xD800 ∨ (0xDFFF < c.toNat ∧ c.toNat < 0x110000) := by
  have h := c.valid
  simp only [UInt32.isValidChar, Nat.isValidChar] at h
  exact h

/-- Decoding the UTF-8 form of a character gives the character and leaves the rest. -/
theorem decodeRune_encode (c : Char) (rest : List Nat) :
    decodeRune (utf8EncodeChar c ++ rest) = (some c, rest) := by
  have hr := char_range c
  have hc : Char.ofNat c.toNat = c := Char.ofNat_toNat c
  unfold utf8EncodeChar
  generalize c.toNat = n at hr hc
  by_cases h1 : n < 0x80
  · simp only [h1, if_true, List.cons_append, List.nil_append, decodeRune, hc]
  by_cases h2 : n < 0x800
  · have e : (0xC0 + n / 0x40) % 0x20 * 0x40 + (0x80 + n % 0x40) % 0x40 = n := by omega
    have a1 : ¬ (0xC0 + n / 0x40 < 0x80) := by omega
    have a2 : ¬ (0xC0 + n / 0x40 < 0xC2) := by omega
    have a3 : 0xC0 + n / 0x40 < 0xE0 := by omega
    have a4 : 0x80 ≤ 0x80 + n % 0x40 ∧ 0x80 + n % 0x40 ≤ 0xBF := by omega
    simp only [h1, h2, if_true, if_false, List.cons_append, List.nil_append, decodeRune, a1, a2,
      a3, a4, and_self, e, hc]
  by_cases h3 : n < 0x10000
  · have e : (0xE0 + n / 0x1000) % 0x10 * 0x1000 + (0x80 + n / 0x40 % 0x40) % 0x40 * 0x40 +
        (0x80 + n % 0x40) % 0x40 = n := by omega
    have a1 : ¬ (0xE0 + n / 0x1000 < 0x80) := by omega
    have a2 : ¬ (0xE0 + n / 0x1000 < 0xC2) := by omega
    have a3 : ¬ (0xE0 + n / 0x1000 < 0xE0) := by omega
    have a4 : 0xE0 + n / 0x1000 < 0xF0 := by omega
    have a5 : (if 0xE0 + n / 0x1000 = 0xE0 then 0xA0 else 0x80) ≤ 0x80 + n / 0x40 % 0x40 ∧
        0x80 + n / 0x40 % 0x40 ≤ (if 0xE0 + n / 0x1000 = 0xED then 0x9F else 0xBF) ∧
        0x80 ≤ 0x80 + n % 0x40 ∧ 0x80 + n % 0x40 ≤ 0xBF := by
      split <;> split <;> omega
    simp only [h1, h2, h3, if_true, if_false, List.cons_append, List.nil_append, decodeRune, a1,
      a2, a3, a4]
    rw [if_pos a5, e, hc]
  · have e : (0xF0 + n / 0x40000) % 0x08 * 0x40000 + (0x80 + n / 0x1000 % 0x40) % 0x40 * 0x1000 +
        (0x80 + n / 0x40 % 0x40) % 0x40 * 0x40 + (0x80 + n % 0x40) % 0x40 = n := by omega
    have a1 : ¬ (0xF0 + n / 0x40000 < 0x80) := by omega
    have a2 : ¬ (0xF0 + n / 0x40000 < 0xC2) := by omega
    have a3 : ¬ (0xF0 + n / 0x40000 < 0xE0) := by omega
    have a4 : ¬ (0xF0 + n / 0x40000 < 0xF0) := by omega
    have a6 : 0xF0 + n / 0x40000 < 0xF5 := by omega
    have a5 : (if 0xF0 + n / 0x40000 = 0xF0 then 0x90 else 0x80) ≤ 0x80 + n / 0x1000 % 0x40 ∧
        0x80 + n / 0x1000 % 0x40 ≤ (if 0xF0 + n / 0x40000 = 0xF4 then 0x8F else 0xBF) ∧
        0x80 ≤ 0x80 + n / 0x40 % 0x40 ∧ 0x80 + n / 0x40 % 0x40 ≤ 0xBF ∧
        0x80 ≤ 0x80 + n % 0x40 ∧ 0x80 + n % 0x40 ≤ 0xBF := by
      split <;> split <;> omega
    simp only [h1, h2, h3, if_true, if_false, List.cons_append, List.nil_append, decodeRune, a1,
      a2, a3, a4, a6]
    rw [if_pos a5, e, hc]

/-- The UTF-8 form of a character is not empty. -/
theorem utf8EncodeChar_pos (c : Char) : 0 < (utf8EncodeChar c).length := by
  unfold utf8EncodeChar
  split
  · simp
  · split
    · simp
    · split <;> simp

/-- Cutting the UTF-8 form of a text into characters gives the text, with no byte
left over. -/
theorem runesAux_utf8 : ∀ (cs : List Char) (fuel : Nat),
    (cs.flatMap utf8EncodeChar).length ≤ fuel →
    runesAux fuel (cs.flatMap utf8EncodeChar) = cs.map some
  | [], fuel, _ => by
    cases fuel <;> rfl
  | c :: cs, fuel, h => by
    have hd := decodeRune_encode c (cs.flatMap utf8EncodeChar)
    have hp := utf8EncodeChar_pos c
    rw [List.flatMap_cons] at h ⊢
    cases he : utf8EncodeChar c with
    | nil => rw [he] at hp; exact absurd hp (by simp)
    | cons b t =>
      rw [he] at h hd
      simp only [List.cons_append, List.length_cons, List.length_append] at h hd ⊢
      cases fuel with
      | zero => omega
      | succ f =>
        rw [runesAux, hd]
        simp only [List.map_cons, List.cons.injEq, true_and]
        exact runesAux_utf8 cs f (by omega)

/-- The characters of the UTF-8 form of a text are those of the text. -/
theorem runes_utf8 (s : String) : runes (utf8 s) = s.data.map some :=
  runesAux_utf8 s.data _ (Nat.le_refl _)


/-- A hexadecimal digit has the value it was written for. -/
theorem hexValue_hexDigit (k : Nat) (h : k < 16) : hexValue (hexDigit k) = some k := by
  interval_cases k <;> decide

/-- Reading the escape the encoder writes for a code point below 256. -/
theorem getu4_low (n : Nat) (h : n < 256) (tail : List Char) :
    getu4 (Char.ofNat 92 :: 'u' :: '0' :: '0' :: hexDigit (n / 16) :: hexDigit (n % 16) :: tail) =
      some (n, tail) := by
  have h0 : hexValue '0' = some 0 := by decide
  have e1 : Char.ofNat 92 = Char.ofNat 92 ∧ 'u' = 'u' := ⟨rfl, rfl⟩
  rw [getu4, if_pos e1, h0, hexValue_hexDigit (n / 16) (by omega),
    hexValue_hexDigit (n % 16) (by omega)]
  simp only [Option.some.injEq, Prod.mk.injEq, and_true]
  omega

/-- Reading a character that stands for itself. -/
theorem unquoteAux_plain (c : Char) (rest : List Char) (fuel : Nat) (hq : c ≠ Char.ofNat 34)
    (hb : c ≠ Char.ofNat 92) (hc : ¬ c.toNat < 0x20) :
    unquoteAux (fuel + 1) (c :: rest) = (unquoteAux fuel rest).map (c :: ·) := by
  have hc1 : ¬ c.toNat < 32 := hc
  cases rest <;> simp [unquoteAux, hq, hb, hc1]

/-- Reading a one-letter escape. -/
theorem unquoteAux_simple (e d : Char) (rest : List Char) (fuel : Nat) (he : e ≠ 'u')
    (hs : simpleEscape e = some d) :
    unquoteAux (fuel + 1) (Char.ofNat 92 :: e :: rest) = (unquoteAux fuel rest).map (d :: ·) := by
  have h1 : Char.ofNat 92 ≠ Char.ofNat 34 := by decide
  cases rest <;> simp [unquoteAux, h1, he, hs]

/-- Reading an escape with four hexadecimal digits that is no surrogate. -/
theorem unquoteAux_u4 (v : Nat) (body rest2 : List Char) (fuel : Nat)
    (hg : getu4 (Char.ofNat 92 :: 'u' :: body) = some (v, rest2))
    (hv : ¬ (0xD800 ≤ v ∧ v < 0xE000)) :
    unquoteAux (fuel + 1) (Char.ofNat 92 :: 'u' :: body) =
      (unquoteAux fuel rest2).map (Char.ofNat v :: ·) := by
  have h1 : Char.ofNat 92 ≠ Char.ofNat 34 := by decide
  have hv1 : ¬ (55296 ≤ v ∧ v < 57344) := hv
  cases body <;> simp only [unquoteAux, h1, hg, if_true, if_false, hv1]

/-- Reading what the encoder wrote for one character, or for one byte that belongs to
no character, gives that character, or U+FFFD. -/
theorem unquoteAux_step (u : Option Char) (tail : List Char) (fuel : Nat) :
    unquoteAux (fuel + 1) (escapeRune u ++ tail) =
      (unquoteAux fuel tail).map (u.getD replacementChar :: ·) := by
  cases u with
  | none =>
    exact unquoteAux_u4 0xFFFD _ tail fuel rfl (by decide)
  | some c =>
    simp only [escapeRune, Option.getD_some]
    unfold escapeChar
    split
    · rename_i h
      rcases h with h | h <;> subst h <;>
        exact unquoteAux_simple _ _ tail fuel (by decide) (by decide)
    split
    · rename_i h; subst h
      exact unquoteAux_simple _ _ tail fuel (by decide) (by decide)
    split
    · rename_i h; subst h
      exact unquoteAux_simple _ _ tail fuel (by decide) (by decide)
    split
    · rename_i h; subst h
      exact unquoteAux_simple _ _ tail fuel (by decide) (by decide)
    split
    · rename_i h; subst h
      exact unquoteAux_simple _ _ tail fuel (by decide) (by decide)
    split
    · rename_i h; subst h
      exact unquoteAux_simple _ _ tail fuel (by decide) (by decide)
    split
    · rename_i h
      have hn : c.toNat < 64 := by
        rcases h with h | h | h | h
        · omega
        · subst h; decide
        · subst h; decide
        · subst h; decide
      have hg := getu4_low c.toNat (by omega) tail
      have hu := unquoteAux_u4 c.toNat _ tail fuel hg (by omega)
      rw [Char.ofNat_toNat] at hu
      exact hu
    split
    · rename_i h; subst h
      exact unquoteAux_u4 8232 _ tail fuel rfl (by decide)
    split
    · rename_i h; subst h
      exact unquoteAux_u4 8233 _ tail fuel rfl (by decide)
    · rename_i h1 h2 h3 h4 h5 h6 h7 h8 h9
      exact unquoteAux_plain c tail fuel (fun h => h1 (Or.inl h)) (fun h => h1 (Or.inr h))
        (fun h => h7 (Or.inl h))

/-- The encoder writes at least one character for every step. -/
theorem escapeRune_pos (u : Option Char) : 0 < (escapeRune u).length := by
  cases u with
  | none => simp [escapeRune]
  | some c =>
    simp only [escapeRune]
    unfold escapeChar
    repeat' split
    all_goals simp

/-- Reading the body of a literal the encoder wrote, up to the closing quote. -/
theorem unquoteAux_escaped : ∀ (us : List (Option Char)) (fuel : Nat), us.length < fuel →
    unquoteAux fuel (us.flatMap escapeRune ++ [Char.ofNat 34]) =
      some (us.map (·.getD replacementChar))
  | [], fuel, h => by
    cases fuel with
    | zero => omega
    | succ f => rfl
  | u :: us, fuel, h => by
    cases fuel with
    | zero => omega
    | succ f =>
      rw [List.flatMap_cons, List.append_assoc, unquoteAux_step,
        unquoteAux_escaped us f (by simpa using h)]
      rfl

/-- The body of a literal has at least as many characters as steps were written. -/
theorem length_le_flatMap : ∀ us : List (Option Char),
    us.length ≤ (us.flatMap escapeRune).length
  | [] => by simp
  | u :: us => by
    have h1 := escapeRune_pos u
    have h2 := length_le_flatMap us
    simp only [List.flatMap_cons, List.length_cons, List.length_append]
    omega

/-- Reading back a literal the encoder wrote gives the string with every invalid byte
replaced by U+FFFD. -/
theorem unquote_quote (s : GoString) :
    unquote (quote s) = some ((runes s).map (·.getD replacementChar)) := by
  have h := length_le_flatMap (runes s)
  rw [quote, unquote, if_pos rfl]
  exact unquoteAux_escaped (runes s) _ (by simp only [List.length_append, List.length_singleton]; omega)

/-- Reading back the literal of the UTF-8 form of a text gives the text. -/
theorem unquote_quote_utf8 (s : String) : unquote (quote (utf8 s)) = some s.data := by
  rw [unquote_quote, runes_utf8, List.map_map]
  exact congrArg some (List.map_id _)

/-- The literal the encoder writes for a string stands for the string with every byte
that is not UTF-8 replaced by U+FFFD. -/
theorem stringValue_quote (n : GoString) :
    (Json.str (quote n)).stringValue = some (replaceInvalid n) := by
  simp only [Json.stringValue, unquote_quote, replaceInvalid, Option.map_some']

/-- Nothing is replaced in the UTF-8 form of a text. -/
theorem replaceInvalid_utf8 (s : String) : replaceInvalid (utf8 s) = utf8 s := by
  rw [replaceInvalid, runes_utf8, List.map_map]
  exact congrArg utf8Chars (List.map_id _)

/-- The literal the encoder writes for the UTF-8 form of a text stands for it. -/
theorem stringValue_quote_utf8 (s : String) :
    (Json.str (quote (utf8 s))).stringValue = some (utf8 s) := by
  rw [stringValue_quote, replaceInvalid_utf8]

/-! ## Path expressions -/

theorem Sprintf_org (s : String) :
    Sprintf "%s/%s" [OrgEndpointName, s] = "organizations/" ++ s := by
  apply String.ext
  simp [Sprintf, sprintfAux, OrgEndpointName]


theorem Sprintf_teams (s : String) :
    Sprintf "organizations/%s/teams" [s] = "organizations/" ++ s ++ "/teams" := by
  apply String.ext
  simp [Sprintf, sprintfAux]

theorem Sprintf_members (s : String) :
    Sprintf "organizations/%s/members" [s] = "organizations/" ++ s ++ "/members" := by
  apply String.ext
  simp [Sprintf, sprintfAux]

theorem Sprintf_scim (s : String) :
    Sprintf "organizations/%s/scim/v2/Groups" [s] = "organizations/" ++ s ++ "/scim/v2/Groups" := by
  apply String.ext
  simp [Sprintf, sprintfAux]

/-- Two texts that agree up to their first separator agree before and after it. -/
theorem split_at_sep {α : Type} (sep : α) :
    ∀ (a b x y : List α), sep ∉ a → sep ∉ b → a ++ sep :: x = b ++ sep :: y → a = b ∧ x = y
  | [], [], x, y, _, _, h => by simpa using h
  | [], d :: b, x, y, _, hb, h => by
    simp only [List.nil_append, List.cons_append, List.cons.injEq] at h
    exact absurd (by simp [h.1]) hb
  | c :: a, [], x, y, ha, _, h => by
    simp only [List.nil_append, List.cons_append, List.cons.injEq] at h
    exact absurd (by simp [h.1]) ha
  | c :: a, d :: b, x, y, ha, hb, h => by
    simp only [List.cons_append, List.cons.injEq] at h
    have ha1 : sep ∉ a := fun hm => ha (List.mem_cons_of_mem _ hm)
    have hb1 : sep ∉ b := fun hm => hb (List.mem_cons_of_mem _ hm)
    have ih := split_at_sep sep a b x y ha1 hb1 h.2
    exact ⟨by rw [h.1, ih.1], ih.2⟩

theorem data_orgPath (s : String) : (orgPath s).data = "organizations/".data ++ s.data := by
  rw [orgPath, Sprintf_org, String.data_append]

theorem data_teamsPath (s : String) :
    (teamsPath s).data = "organizations/".data ++ (s.data ++ '/' :: "teams".data) := by
  rw [teamsPath, Sprintf_teams, String.data_append, String.data_append, List.append_assoc]

theorem data_membersPath (s : String) :
    (membersPath s).data = "organizations/".data ++ (s.data ++ '/' :: "members".data) := by
  rw [membersPath, Sprintf_members, String.data_append, String.data_append, List.append_assoc]

theorem data_scimPath (s : String) :
    (scimPath s).data = "organizations/".data ++ (s.data ++ '/' :: "scim/v2/Groups".data) := by
  rw [scimPath, Sprintf_scim, String.data_append, String.data_append, List.append_assoc]

/-- The path of a single organization determines the slug. -/
theorem orgPath_injective (s t : String) (h : orgPath s = orgPath t) : s = t := by
  have hd := congrArg String.data h
  rw [data_orgPath, data_orgPath] at hd
  exact String.ext (List.append_cancel_left hd)

/-- A sub-resource path determines the slug, whatever the sub-resource. -/
theorem subPath_injective (s t : String) (tail : List Char)
    (h : "organizations/".data ++ (s.data ++ tail) = "organizations/".data ++ (t.data ++ tail)) :
    s = t :=
  String.ext (List.append_cancel_right (List.append_cancel_left h))

/-- The path of a single organization is not a sub-resource path when the slug has
no separator. -/
theorem orgPath_ne_subPath (s t : String) (tail : List Char) (hs : '/' ∉ s.toList)
    (h : "organizations/".data ++ s.data = "organizations/".data ++ (t.data ++ '/' :: tail)) :
    False := by
  have hd := List.append_cancel_left h
  apply hs
  show '/' ∈ s.data
  rw [hd]
  simp

/-- Sub-resource paths of slugs without separator agree only for equal sub-resources. -/
theorem subPath_ne_subPath (s t : String) (tail1 tail2 : List Char) (hs : '/' ∉ s.toList)
    (ht : '/' ∉ t.toList) (hne : tail1 ≠ tail2)
    (h : "organizations/".data ++ (s.data ++ '/' :: tail1) =
      "organizations/".data ++ (t.data ++ '/' :: tail2)) :
    False :=
  hne (split_at_sep '/' s.data t.data tail1 tail2 hs ht (List.append_cancel_left h)).2

/-- No path with a slug is the list path. -/
theorem slugPath_ne_list (rest : List Char) (p : String)
    (hp : p.data = "organizations/".data ++ rest) : p ≠ OrgEndpointName := by
  intro h
  have hd := congrArg String.data h
  rw [hp] at hd
  have hl := congrArg List.length hd
  simp [OrgEndpointName] at hl

/-- Without the condition on the slug the paths collide. -/
theorem orgPath_collides : orgPath "x/teams" = teamsPath "x" := by
  rw [orgPath, teamsPath, Sprintf_org, Sprintf_teams]
  decide

section PathTheorems

variable {E : Decls} {σ : Type}

/-- The paths the six slug-addressed methods request. -/
theorem requestPaths_of_methods (c : Client E σ) (w : σ) (o : Organization E) (s : String)
    (ho : o.Slug = some s) :
    requestPaths (GetOrganization c s) w = [orgPath s] ∧
    requestPaths (UpdateOrganization c o) w = [orgPath s] ∧
    requestPaths (DeleteOrganization c o) w = [orgPath s] ∧
    requestPaths (GetOrganizationTeams c o) w = [teamsPath s] ∧
    requestPaths (GetOrganizationMembers c o) w = [membersPath s] ∧
    requestPaths (GetOrganizationTeamsSCIM c o) w = [scimPath s] := by
  refine ⟨rfl, ?_, ?_, ?_, ?_, ?_⟩
  · simp only [requestPaths, UpdateOrganization, ho]; rfl
  · simp only [requestPaths, DeleteOrganization, ho]; rfl
  · simp only [requestPaths, GetOrganizationTeams, ho]; rfl
  · simp only [requestPaths, GetOrganizationMembers, ho]; rfl
  · simp only [requestPaths, GetOrganizationTeamsSCIM, ho]; rfl

/-- The four path shapes are apart for slugs without separator. -/
theorem shapes_apart (s t : String) (hs : '/' ∉ s.toList) (ht : '/' ∉ t.toList) :
    orgPath s ≠ teamsPath t ∧ orgPath s ≠ membersPath t ∧ orgPath s ≠ scimPath t ∧
    teamsPath s ≠ membersPath t ∧ teamsPath s ≠ scimPath t ∧ membersPath s ≠ scimPath t := by
  refine ⟨?_, ?_, ?_, ?_, ?_, ?_⟩
  · intro h
    have hd := congrArg String.data h
    rw [data_orgPath, data_teamsPath] at hd
    exact orgPath_ne_subPath s t _ hs hd
  · intro h
    have hd := congrArg String.data h
    rw [data_orgPath, data_membersPath] at hd
    exact orgPath_ne_subPath s t _ hs hd
  · intro h
    have hd := congrArg String.data h
    rw [data_orgPath, data_scimPath] at hd
    exact orgPath_ne_subPath s t _ hs hd
  · intro h
    have hd := congrArg String.data h
    rw [data_teamsPath, data_membersPath] at hd
    exact subPath_ne_subPath s t _ _ hs ht (by decide) hd
  · intro h
    have hd := congrArg String.data h
    rw [data_teamsPath, data_scimPath] at hd
    exact subPath_ne_subPath s t _ _ hs ht (by decide) hd
  · intro h
    have hd := congrArg String.data h
    rw [data_membersPath, data_scimPath] at hd
    exact subPath_ne_subPath s t _ _ hs ht (by decide) hd

/-- C10. The slug is the sole addressing key: the six slug-addressed methods request
the four path shapes; for slugs `s` and `t` without the character `/` every shape is
injective in the slug, a path of one shape for one slug never equals a path of
another shape for the other slug, and no such path is the list path
`organizations`. The slug is inserted unescaped: `GetOrganization` for `x/teams`
requests the very path `GetOrganizationTeams` requests for the slug `x`. -/
theorem slug_is_sole_addressing_key (c : Client E σ) (w : σ) (o : Organization E) (s t : String)
    (ho : o.Slug = some s) (hs : '/' ∉ s.toList) (ht : '/' ∉ t.toList) :
    (requestPaths (GetOrganization c s) w = [orgPath s] ∧
      requestPaths (UpdateOrganization c o) w = [orgPath s] ∧
      requestPaths (DeleteOrganization c o) w = [orgPath s] ∧
      requestPaths (GetOrganizationTeams c o) w = [teamsPath s] ∧
      requestPaths (GetOrganizationMembers c o) w = [membersPath s] ∧
      requestPaths (GetOrganizationTeamsSCIM c o) w = [scimPath s]) ∧
    ((orgPath s = orgPath t → s = t) ∧ (teamsPath s = teamsPath t → s = t) ∧
      (membersPath s = membersPath t → s = t) ∧ (scimPath s = scimPath t → s = t)) ∧
    (orgPath s ≠ teamsPath t ∧ orgPath s ≠ membersPath t ∧ orgPath s ≠ scimPath t ∧
      teamsPath s ≠ membersPath t ∧ teamsPath s ≠ scimPath t ∧ membersPath s ≠ scimPath t) ∧
    (orgPath t ≠ teamsPath s ∧ orgPath t ≠ membersPath s ∧ orgPath t ≠ scimPath s ∧
      teamsPath t ≠ membersPath s ∧ teamsPath t ≠ scimPath s ∧ membersPath t ≠ scimPath s) ∧
    (orgPath s ≠ OrgEndpointName ∧ teamsPath s ≠ OrgEndpointName ∧
      membersPath s ≠ OrgEndpointName ∧ scimPath s ≠ OrgEndpointName) ∧
    (orgPath "x/teams" = teamsPath "x" ∧
      requestPaths (GetOrganization c "x/teams") w =
        requestPaths (GetOrganizationTeams c { o with Slug := some "x" }) w) := by
  refine ⟨requestPaths_of_methods c w o s ho, ⟨orgPath_injective s t, ?_, ?_, ?_⟩,
    shapes_apart s t hs ht, shapes_apart t s ht hs,
    ⟨slugPath_ne_list _ _ (data_orgPath s), slugPath_ne_list _ _ (data_teamsPath s),
      slugPath_ne_list _ _ (data_membersPath s), slugPath_ne_list _ _ (data_scimPath s)⟩,
    orgPath_collides, ?_⟩
  · intro h
    have hd := congrArg String.data h
    rw [data_teamsPath, data_teamsPath] at hd
    exact subPath_injective s t _ hd
  · intro h
    have hd := congrArg String.data h
    rw [data_membersPath, data_membersPath] at hd
    exact subPath_injective s t _ hd
  · intro h
    have hd := congrArg String.data h
    rw [data_scimPath, data_scimPath] at hd
    exact subPath_injective s t _ hd
  · have h1 := (requestPaths_of_methods c w { o with Slug := some "x" } "x" rfl).2.2.2.1
    rw [h1, ← orgPath_collides]
    rfl

/-- Witness of C10: the slugs `acme` and `globex` against the serving client. -/
theorem slug_is_sole_addressing_key_witness :
    (namedOrg "Acme" "acme").Slug = some "acme" ∧ '/' ∉ "acme".toList ∧ '/' ∉ "globex".toList ∧
    requestPaths (GetOrganizationTeams (servingClient (namedOrg "Acme" "acme"))
      (namedOrg "Acme" "acme")) 0 = [teamsPath "acme"] ∧
    teamsPath "acme" ≠ membersPath "globex" :=
  have h := slug_is_sole_addressing_key (servingClient (namedOrg "Acme" "acme")) 0
    (namedOrg "Acme" "acme") "acme" "globex" rfl (by decide) (by decide)
  ⟨rfl, by decide, by decide, h.1.2.2.2.1, h.2.2.1.2.2.2.1⟩

end PathTheorems

/-! ## The calls the methods make -/

section CallTheorems

variable {E : Decls} {σ : Type}

/-- The run of `GetOrganization`. -/
theorem run_GetOrganization (c : Client E σ) (s : String) (r : Run E σ) :
    GetOrganization c s r =
      (.ok ((c.do_ r.world "GET" ("organizations/" ++ s) .organization (Organization.zero E)
          (Arg.nil E)).1,
        (c.do_ r.world "GET" ("organizations/" ++ s) .organization (Organization.zero E)
          (Arg.nil E)).2.1),
        { world := (c.do_ r.world "GET" ("organizations/" ++ s) .organization
            (Organization.zero E) (Arg.nil E)).2.2,
          calls := r.calls ++
            [⟨false, "GET", "organizations/" ++ s, ⟨.organization, Organization.zero E⟩,
              Arg.nil E⟩] }) := by
  simp only [GetOrganization, Sprintf_org]
  rfl

/-- The run of `GetOrganizations`. -/
theorem run_GetOrganizations (c : Client E σ) (r : Run E σ) :
    GetOrganizations c r =
      (.ok ((c.doWithPagination r.world "GET" "organizations" .organizations (.mk [])
          (Arg.nil E)).1,
        (c.doWithPagination r.world "GET" "organizations" .organizations (.mk [])
          (Arg.nil E)).2.1,
        (c.doWithPagination r.world "GET" "organizations" .organizations (.mk [])
          (Arg.nil E)).2.2.1),
        { world := (c.doWithPagination r.world "GET" "organizations" .organizations (.mk [])
            (Arg.nil E)).2.2.2,
          calls := r.calls ++
            [⟨true, "GET", "organizations", ⟨.organizations, Slice.mk []⟩, Arg.nil E⟩] }) :=
  rfl

/-- The run of `CreateOrganization`. -/
theorem run_CreateOrganization (c : Client E σ) (n : GoString) (r : Run E σ) :
    CreateOrganization c n r =
      (.ok ((c.do_ r.world "POST" "organizations" .organization (Organization.zero E)
          (Arg.org (Organization.withName E n))).1,
        (c.do_ r.world "POST" "organizations" .organization (Organization.zero E)
          (Arg.org (Organization.withName E n))).2.1),
        { world := (c.do_ r.world "POST" "organizations" .organization (Organization.zero E)
            (Arg.org (Organization.withName E n))).2.2,
          calls := r.calls ++
            [⟨false, "POST", "organizations", ⟨.organization, Organization.zero E⟩,
              Arg.org (Organization.withName E n)⟩] }) :=
  rfl

/-- The runs of the five methods that take an organization, for a slug that is set. -/
theorem runs_with_slug (c : Client E σ) (o : Organization E) (s : String) (r : Run E σ)
    (h : o.Slug = some s) :
    UpdateOrganization c o r =
      (.ok (c.do_ r.world "PUT" ("organizations/" ++ s) .organization o (Arg.org o)).2.1,
        { world := (c.do_ r.world "PUT" ("organizations/" ++ s) .organization o (Arg.org o)).2.2,
          calls := r.calls ++
            [⟨false, "PUT", "organizations/" ++ s, ⟨.organization, o⟩, Arg.org o⟩] }) ∧
    DeleteOrganization c o r =
      (.ok (c.do_ r.world "DELETE" ("organizations/" ++ s) .none () (Arg.nil E)).2.1,
        { world := (c.do_ r.world "DELETE" ("organizations/" ++ s) .none () (Arg.nil E)).2.2,
          calls := r.calls ++
            [⟨false, "DELETE", "organizations/" ++ s, Arg.nil E, Arg.nil E⟩] }) ∧
    GetOrganizationTeams c o r =
      (.ok ((c.do_ r.world "GET" ("organizations/" ++ s ++ "/teams") .teams (.mk [])
          (Arg.nil E)).1,
        (c.do_ r.world "GET" ("organizations/" ++ s ++ "/teams") .teams (.mk [])
          (Arg.nil E)).2.1),
        { world := (c.do_ r.world "GET" ("organizations/" ++ s ++ "/teams") .teams (.mk [])
            (Arg.nil E)).2.2,
          calls := r.calls ++
            [⟨false, "GET", "organizations/" ++ s ++ "/teams", ⟨.teams, Slice.mk []⟩,
              Arg.nil E⟩] }) ∧
    GetOrganizationMembers c o r =
      (.ok ((c.do_ r.world "GET" ("organizations/" ++ s ++ "/members") .members (.mk [])
          (Arg.nil E)).1,
        (c.do_ r.world "GET" ("organizations/" ++ s ++ "/members") .members (.mk [])
          (Arg.nil E)).2.1),
        { world := (c.do_ r.world "GET" ("organizations/" ++ s ++ "/members") .members (.mk [])
            (Arg.nil E)).2.2,
          calls := r.calls ++
            [⟨false, "GET", "organizations/" ++ s ++ "/members", ⟨.members, Slice.mk []⟩,
              Arg.nil E⟩] }) ∧
    GetOrganizationTeamsSCIM c o r =
      (.ok ((c.do_ r.world "GET" ("organizations/" ++ s ++ "/scim/v2/Groups") .scim
          SCIMResource.zero (Arg.nil E)).1,
        (c.do_ r.world "GET" ("organizations/" ++ s ++ "/scim/v2/Groups") .scim
          SCIMResource.zero (Arg.nil E)).2.1),
        { world := (c.do_ r.world "GET" ("organizations/" ++ s ++ "/scim/v2/Groups") .scim
            SCIMResource.zero (Arg.nil E)).2.2,
          calls := r.calls ++
            [⟨false, "GET", "organizations/" ++ s ++ "/scim/v2/Groups",
              ⟨.scim, SCIMResource.zero⟩, Arg.nil E⟩] }) := by
  refine ⟨?_, ?_, ?_, ?_, ?_⟩
  · simp only [UpdateOrganization, h, Sprintf_org]; rfl
  · simp only [DeleteOrganization, h, Sprintf_org]; rfl
  · simp only [GetOrganizationTeams, h, Sprintf_teams]; rfl
  · simp only [GetOrganizationMembers, h, Sprintf_members]; rfl
  · simp only [GetOrganizationTeamsSCIM, h, Sprintf_scim]; rfl

/-- C1. `GetOrganization(s)` calls `do` exactly once, with `GET`, the path
`organizations/` followed by `s`, an out-pointer to a fresh zero `Organization` and a
nil body; it returns the organization `do` left in the out variable, so with the
name `do` decoded into it, together with the error of `do`. -/
theorem GetOrganization_calls_do_once (c : Client E σ) (s : String) (r : Run E σ) :
    let res := c.do_ r.world "GET" ("organizations/" ++ s) .organization (Organization.zero E)
      (Arg.nil E)
    GetOrganization c s r =
        (.ok (res.1, res.2.1),
          { world := res.2.2,
            calls := r.calls ++
              [⟨false, "GET", "organizations/" ++ s, ⟨.organization, Organization.zero E⟩,
                Arg.nil E⟩] }) ∧
      (GetOrganization c s r).2.calls.length = r.calls.length + 1 ∧
      (GetOrganization c s r).1.map (fun v => v.1.Name) = .ok res.1.Name := by
  have h := run_GetOrganization c s r
  refine ⟨h, ?_, ?_⟩
  · rw [h]; simp
  · rw [h]; rfl

/-- C2, with the condition it needs. `CreateOrganization(n)` calls `do` exactly once,
with `POST`, the path `organizations` and as body an `Organization` with the name `n`
and all eight optional fields nil. Under the struct tags that body encodes to the
object with the single member `name`, whose value is the string literal the encoder
writes for `n`. That literal stands for `n` with every byte that is not UTF-8
replaced by U+FFFD, hence for `n` itself when `n` is the UTF-8 form of a text `s`;
for `foo` the text of the encoding is the object with `"name":"foo"` alone. -/
theorem CreateOrganization_sends_name_only (c : Client E σ) (n : GoString) (s : String)
    (r : Run E σ) (L : JSONEncoders E) :
    let body := Organization.withName E n
    let res := c.do_ r.world "POST" "organizations" .organization (Organization.zero E)
      (Arg.org body)
    CreateOrganization c n r =
        (.ok (res.1, res.2.1),
          { world := res.2.2,
            calls := r.calls ++
              [⟨false, "POST", "organizations", ⟨.organization, Organization.zero E⟩,
                Arg.org body⟩] }) ∧
      (body.Name = n ∧ body.PendingAccessRequest = none ∧ body.Slug = none ∧
        body.Quota = none ∧ body.DateCreated = none ∧ body.Teams = none ∧ body.ID = none ∧
        body.IsEarlyAdopter = none ∧ body.Features = none) ∧
      body.Marshal L = .ok (.obj [("name", .str (quote n))]) ∧
      (Json.str (quote n)).stringValue = some (replaceInvalid n) ∧
      (Json.str (quote (utf8 s))).stringValue = some (utf8 s) ∧
      ((Organization.withName E (utf8 "foo")).Marshal L).map Json.text =
        .ok "\x7b\"name\":\"foo\"\x7d" := by
  refine ⟨rfl, ⟨rfl, rfl, rfl, rfl, rfl, rfl, rfl, rfl, rfl⟩, rfl, stringValue_quote n,
    stringValue_quote_utf8 s, rfl⟩

/-- C3. For an organization whose slug is nil, `UpdateOrganization` and
`DeleteOrganization` end in a nil-pointer panic before `do` is called: no error value,
nil or not, is returned, no request is recorded and the world is untouched. -/
theorem nil_slug_panics_before_do (c : Client E σ) (o : Organization E) (r : Run E σ)
    (h : o.Slug = none) :
    (UpdateOrganization c o r = (.error .nilPointerDereference, r) ∧
      DeleteOrganization c o r = (.error .nilPointerDereference, r)) ∧
    ((UpdateOrganization c o r).1 ≠ .ok none ∧ (DeleteOrganization c o r).1 ≠ .ok none) ∧
    ((UpdateOrganization c o r).2.calls = r.calls ∧
      (DeleteOrganization c o r).2.calls = r.calls) := by
  have hu : UpdateOrganization c o r = (.error .nilPointerDereference, r) := by
    simp only [UpdateOrganization, h]; rfl
  have hd : DeleteOrganization c o r = (.error .nilPointerDereference, r) := by
    simp only [DeleteOrganization, h]; rfl
  refine ⟨⟨hu, hd⟩, ⟨?_, ?_⟩, ?_, ?_⟩
  · rw [hu]; intro hne; cases hne
  · rw [hd]; intro hne; cases hne
  · rw [hu]
  · rw [hd]

/-- Witness of C3: the zero organization against the serving client. -/
theorem nil_slug_panics_before_do_witness :
    (Organization.zero Fixture).Slug = none ∧
    UpdateOrganization (servingClient (namedOrg "Acme" "acme")) (Organization.zero Fixture)
      ⟨0, []⟩ = (.error .nilPointerDereference, ⟨0, []⟩) :=
  ⟨rfl, (nil_slug_panics_before_do (servingClient (namedOrg "Acme" "acme"))
    (Organization.zero Fixture) ⟨0, []⟩ rfl).1.1⟩

/-- C7. For an organization `o` whose slug points to `s`, each slug-addressed method
makes exactly one `do` call: `UpdateOrganization` sends `PUT organizations/s` with `o`
as body (and as out variable), `DeleteOrganization` sends `DELETE organizations/s`
with nil body and nil out, and the three listings send `GET` to
`organizations/s/teams`, `organizations/s/members` and `organizations/s/scim/v2/Groups`
with nil body and return, unchanged, the value `do` left in the out variable; for the
SCIM envelope that is the same `TotalResults` and the same `Resources`. -/
theorem slug_addressed_calls (c : Client E σ) (o : Organization E) (s : String) (r : Run E σ)
    (h : o.Slug = some s) :
    let put := c.do_ r.world "PUT" ("organizations/" ++ s) .organization o (Arg.org o)
    let del := c.do_ r.world "DELETE" ("organizations/" ++ s) .none () (Arg.nil E)
    let teams := c.do_ r.world "GET" ("organizations/" ++ s ++ "/teams") .teams (.mk [])
      (Arg.nil E)
    let members := c.do_ r.world "GET" ("organizations/" ++ s ++ "/members") .members (.mk [])
      (Arg.nil E)
    let scim := c.do_ r.world "GET" ("organizations/" ++ s ++ "/scim/v2/Groups") .scim
      SCIMResource.zero (Arg.nil E)
    UpdateOrganization c o r =
        (.ok put.2.1,
          { world := put.2.2,
            calls := r.calls ++
              [⟨false, "PUT", "organizations/" ++ s, Arg.org o, Arg.org o⟩] }) ∧
      DeleteOrganization c o r =
        (.ok del.2.1,
          { world := del.2.2,
            calls := r.calls ++
              [⟨false, "DELETE", "organizations/" ++ s, Arg.nil E, Arg.nil E⟩] }) ∧
      GetOrganizationTeams c o r =
        (.ok (teams.1, teams.2.1),
          { world := teams.2.2,
            calls := r.calls ++
              [⟨false, "GET", "organizations/" ++ s ++ "/teams", ⟨.teams, Slice.mk []⟩,
                Arg.nil E⟩] }) ∧
      GetOrganizationMembers c o r =
        (.ok (members.1, members.2.1),
          { world := members.2.2,
            calls := r.calls ++
              [⟨false, "GET", "organizations/" ++ s ++ "/members", ⟨.members, Slice.mk []⟩,
                Arg.nil E⟩] }) ∧
      GetOrganizationTeamsSCIM c o r =
        (.ok (scim.1, scim.2.1),
          { world := scim.2.2,
            calls := r.calls ++
              [⟨false, "GET", "organizations/" ++ s ++ "/scim/v2/Groups",
                ⟨.scim, SCIMResource.zero⟩, Arg.nil E⟩] }) ∧
      (GetOrganizationTeamsSCIM c o r).1.map (fun v => (v.1.TotalResults, v.1.Resources)) =
        .ok (scim.1.TotalResults, scim.1.Resources) := by
  intro put del teams members scim
  obtain ⟨h1, h2, h3, h4, h5⟩ := runs_with_slug c o s r h
  refine ⟨h1, h2, h3, h4, h5, ?_⟩
  rw [h5]
  rfl

/-- Witness of C7: the SCIM listing of the serving client is returned as it is, with
its two resources and their member lists. -/
theorem slug_addressed_calls_witness :
    (namedOrg "Acme" "acme").Slug = some "acme" ∧
    (GetOrganizationTeamsSCIM (servingClient (namedOrg "Acme" "acme")) (namedOrg "Acme" "acme")
      ⟨0, []⟩).1 = .ok (scimFixture, none) ∧
    scimFixture.TotalResults = 2 ∧ scimFixture.Resources.len = 2 :=
  ⟨rfl,
    congrArg Prod.fst (slug_addressed_calls (servingClient (namedOrg "Acme" "acme"))
      (namedOrg "Acme" "acme") "acme" ⟨0, []⟩ rfl).2.2.2.2.1,
    rfl, rfl⟩

/-- C6. For each of the eight methods, called with a slug that is set where one is
needed, the error returned is the error value of the single helper call, as it is
(hence nil exactly when the error of the helper is nil), and the trace grows by
exactly one call whether the helper failed or not: nothing is retried. -/
theorem errors_propagate_unchanged (c : Client E σ) (r : Run E σ) (orgslug : String)
    (orgname : GoString) (o : Organization E) (s : String) (h : o.Slug = some s) :
    ((GetOrganization c orgslug r).1.map (fun v => v.2) =
        .ok (c.do_ r.world "GET" ("organizations/" ++ orgslug) .organization
          (Organization.zero E) (Arg.nil E)).2.1 ∧
      (GetOrganization c orgslug r).2.calls.length = r.calls.length + 1) ∧
    ((GetOrganizations c r).1.map (fun v => v.2.2) =
        .ok (c.doWithPagination r.world "GET" "organizations" .organizations (.mk [])
          (Arg.nil E)).2.2.1 ∧
      (GetOrganizations c r).2.calls.length = r.calls.length + 1) ∧
    ((CreateOrganization c orgname r).1.map (fun v => v.2) =
        .ok (c.do_ r.world "POST" "organizations" .organization (Organization.zero E)
          (Arg.org (Organization.withName E orgname))).2.1 ∧
      (CreateOrganization c orgname r).2.calls.length = r.calls.length + 1) ∧
    ((UpdateOrganization c o r).1 =
        .ok (c.do_ r.world "PUT" ("organizations/" ++ s) .organization o (Arg.org o)).2.1 ∧
      (UpdateOrganization c o r).2.calls.length = r.calls.length + 1) ∧
    ((DeleteOrganization c o r).1 =
        .ok (c.do_ r.world "DELETE" ("organizations/" ++ s) .none () (Arg.nil E)).2.1 ∧
      (DeleteOrganization c o r).2.calls.length = r.calls.length + 1) ∧
    ((GetOrganizationTeams c o r).1.map (fun v => v.2) =
        .ok (c.do_ r.world "GET" ("organizations/" ++ s ++ "/teams") .teams (.mk [])
          (Arg.nil E)).2.1 ∧
      (GetOrganizationTeams c o r).2.calls.length = r.calls.length + 1) ∧
    ((GetOrganizationMembers c o r).1.map (fun v => v.2) =
        .ok (c.do_ r.world "GET" ("organizations/" ++ s ++ "/members") .members (.mk [])
          (Arg.nil E)).2.1 ∧
      (GetOrganizationMembers c o r).2.calls.length = r.calls.length + 1) ∧
    ((GetOrganizationTeamsSCIM c o r).1.map (fun v => v.2) =
        .ok (c.do_ r.world "GET" ("organizations/" ++ s ++ "/scim/v2/Groups") .scim
          SCIMResource.zero (Arg.nil E)).2.1 ∧
      (GetOrganizationTeamsSCIM c o r).2.calls.length = r.calls.length + 1) := by
  obtain ⟨h1, h2, h3, h4, h5⟩ := runs_with_slug c o s r h
  have hg : GetOrganization c orgslug r = _ := (run_GetOrganization c orgslug r)
  have hl : GetOrganizations c r = _ := (run_GetOrganizations c r)
  have hc : CreateOrganization c orgname r = _ := (run_CreateOrganization c orgname r)
  refine ⟨⟨?_, ?_⟩, ⟨?_, ?_⟩, ⟨?_, ?_⟩, ⟨?_, ?_⟩, ⟨?_, ?_⟩, ⟨?_, ?_⟩, ⟨?_, ?_⟩, ⟨?_, ?_⟩⟩
  · rw [hg]; rfl
  · rw [hg]; simp
  · rw [hl]; rfl
  · rw [hl]; simp
  · rw [hc]; rfl
  · rw [hc]; simp
  · rw [h1]
  · rw [h1]; simp
  · rw [h2]
  · rw [h2]; simp
  · rw [h3]; rfl
  · rw [h3]; simp
  · rw [h4]; rfl
  · rw [h4]; simp
  · rw [h5]; rfl
  · rw [h5]; simp

/-- Witness of C6: against the failing client every method returns the error of the
helper, after one call. -/
theorem errors_propagate_unchanged_witness :
    (namedOrg "Acme" "acme").Slug = some "acme" ∧
    (UpdateOrganization failingClient (namedOrg "Acme" "acme") ⟨0, []⟩).1 =
      .ok (some ⟨"503 Service Unavailable"⟩) ∧
    (UpdateOrganization failingClient (namedOrg "Acme" "acme") ⟨0, []⟩).2.calls.length = 1 :=
  ⟨rfl,
    (errors_propagate_unchanged failingClient ⟨0, []⟩ "acme" (utf8 "Acme")
      (namedOrg "Acme" "acme")
      "acme" rfl).2.2.2.1.1,
    (errors_propagate_unchanged failingClient ⟨0, []⟩ "acme" (utf8 "Acme")
      (namedOrg "Acme" "acme")
      "acme" rfl).2.2.2.1.2⟩

/-- C5, as the code has it. With a slug that is set, `UpdateOrganization` makes one
`PUT` call with its own copy of the organization as body and as out variable, and
its only result is the error of `do`: the organization the server returned is no part
of the result, and after a call that succeeded the result is the nil error, whatever
`do` decoded. -/
theorem UpdateOrganization_returns_error_only (c : Client E σ) (o : Organization E)
    (s : String) (r : Run E σ) (h : o.Slug = some s) :
    UpdateOrganization c o r =
        (.ok (c.do_ r.world "PUT" ("organizations/" ++ s) .organization o (Arg.org o)).2.1,
          { world := (c.do_ r.world "PUT" ("organizations/" ++ s) .organization o
              (Arg.org o)).2.2,
            calls := r.calls ++
              [⟨false, "PUT", "organizations/" ++ s, Arg.org o, Arg.org o⟩] }) ∧
      ((c.do_ r.world "PUT" ("organizations/" ++ s) .organization o (Arg.org o)).2.1 = none →
        (UpdateOrganization c o r).1 = .ok none) := by
  have hc := (runs_with_slug c o s r h).1
  refine ⟨hc, fun he => ?_⟩
  rw [hc, he]

/-- Witness of C5 as amended: an update against a server that answers with its own
view of the organization returns the nil error and nothing else. -/
theorem UpdateOrganization_returns_error_only_witness :
    (namedOrg "Mine" "acme").Slug = some "acme" ∧
    (UpdateOrganization (servingClient (namedOrg "Acme" "acme")) (namedOrg "Mine" "acme")
      ⟨0, []⟩).1 = .ok none :=
  ⟨rfl,
    (UpdateOrganization_returns_error_only (servingClient (namedOrg "Acme" "acme"))
      (namedOrg "Mine" "acme") "acme" ⟨0, []⟩ rfl).2 rfl⟩

end CallTheorems

/-! ## Runs that refute -/

/-- Organizations with different names are different. -/
theorem namedOrg_ne (a b slug : String) (h : utf8 a ≠ utf8 b) :
    namedOrg a slug ≠ namedOrg b slug :=
  fun he => h (congrArg Organization.Name he)

/-- C4. The code departs from the claim and from its own doc comment ("will return
back every organization in the sentry instance"). Against the backend that serves the
organizations `Acme` and `Globex` on two pages, `GetOrganizations` succeeds after a
single request, hands back a link to the second page, and returns the first page
only: `Globex`, which the backend holds, is not in the result. -/
theorem GetOrganizations_stops_after_first_page :
    (GetOrganizations pagedClient
        ⟨[[namedOrg "Acme" "acme"], [namedOrg "Globex" "globex"]], []⟩).1.map
      (fun v => (v.1.toList, v.2)) =
      .ok ([namedOrg "Acme" "acme"], some ⟨none, some 1⟩, none) ∧
    (GetOrganizations pagedClient
        ⟨[[namedOrg "Acme" "acme"], [namedOrg "Globex" "globex"]], []⟩).2.calls.length = 1 ∧
    namedOrg "Globex" "globex" ∈
      [[namedOrg "Acme" "acme"], [namedOrg "Globex" "globex"]].flatten ∧
    namedOrg "Globex" "globex" ∉ [namedOrg "Acme" "acme"] := by
  refine ⟨rfl, rfl, by simp, ?_⟩
  intro hm
  have he := List.mem_singleton.mp hm
  have hn := congrArg Organization.Name he
  exact absurd hn (by decide)

/-- C5 fails as stated. Nothing the caller holds after a successful
`UpdateOrganization`, its own value and the outcome of the call, determines the
organization the server returned: two servers with different views give the same
outcome. The two views differ in the name, a field the struct holds by value, so the
method's copy of the organization shares nothing with the caller that could carry
the difference. -/
theorem UpdateOrganization_drops_server_view :
    ¬ ∃ obtain : Organization Fixture → Except GoPanic Error → Organization Fixture,
      ∀ (view o : Organization Fixture) (s : String), o.Slug = some s →
        (UpdateOrganization (servingClient view) o ⟨0, []⟩).1 = .ok none →
        obtain o (UpdateOrganization (servingClient view) o ⟨0, []⟩).1 =
          ((servingClient view).do_ 0 "PUT" ("organizations/" ++ s) .organization o
            (Arg.org o)).1 := by
  rintro ⟨obtain, h⟩
  have h1 := h (namedOrg "Acme" "acme") (namedOrg "Mine" "acme") "acme" rfl rfl
  have h2 := h (namedOrg "ACME Corp" "acme") (namedOrg "Mine" "acme") "acme" rfl rfl
  have he : namedOrg "Acme" "acme" = namedOrg "ACME Corp" "acme" := h1.symm.trans h2
  exact namedOrg_ne "Acme" "ACME Corp" "acme" (by decide) he

/-! ## The JSON encoding of an organization -/

section JsonTheorems

variable {E : Decls}

/-- Different fields have different tag names. -/
theorem tagName_injective (f g : OrgField) (h : f.tagName = g.tagName) : f = g := by
  cases f <;> cases g <;> first | rfl | exact absurd h (by decide)

/-- Every field is in the list of all fields. -/
theorem mem_all (f : OrgField) : f ∈ OrgField.all := by
  cases f <;> simp [OrgField.all]

/-- A tag name is among the names of the selected fields exactly when its field is
selected. -/
theorem tagName_mem_iff (p : OrgField → Bool) (f : OrgField) :
    f.tagName ∈ (OrgField.all.filter p).map OrgField.tagName ↔ p f = true := by
  simp only [List.mem_map, List.mem_filter]
  constructor
  · rintro ⟨g, ⟨_, hp⟩, hg⟩
    rw [← tagName_injective g f hg]
    exact hp
  · intro hp
    exact ⟨f, ⟨mem_all f, hp⟩, rfl⟩

/-- The encoder keeps exactly the fields that are present. -/
theorem keep_eq_isSet (o : Organization E) (f : OrgField) :
    (f.omitempty && o.isEmptyValue f) = !o.isSet f := by
  cases f <;>
    simp [OrgField.omitempty, Organization.isEmptyValue, Organization.isSet]

/-- When the members encode, their keys are the tag names of the fields that are
present, in order. -/
theorem keys_members (L : JSONEncoders E) (o : Organization E) :
    ∀ (fs : List OrgField) (ms : List (String × Json)), o.members L fs = .ok ms →
      ms.map Prod.fst = (fs.filter o.isSet).map OrgField.tagName
  | [], ms, h => by
    simp only [Organization.members, Except.ok.injEq] at h
    subst h
    rfl
  | f :: fs, ms, h => by
    rw [Organization.members, keep_eq_isSet] at h
    cases hs : o.isSet f with
    | false =>
      rw [hs] at h
      simp only [Bool.not_false, if_true] at h
      rw [List.filter_cons_of_neg (by simp [hs])]
      exact keys_members L o fs ms h
    | true =>
      rw [hs] at h
      simp only [Bool.not_true, Bool.false_eq_true, if_false] at h
      cases hv : o.encodeField L f with
      | error e => rw [hv] at h; cases h
      | ok v =>
        rw [hv] at h
        cases hm : o.members L fs with
        | error e => rw [hm] at h; cases h
        | ok ms1 =>
          rw [hm] at h
          simp only [Except.ok.injEq] at h
          subst h
          rw [List.filter_cons_of_pos (by simp [hs])]
          simp only [List.map_cons, List.cons.injEq, true_and]
          exact keys_members L o fs ms1 hm

/-- The members encode exactly when every present field among them encodes. -/
theorem members_ok_iff (L : JSONEncoders E) (o : Organization E) :
    ∀ fs : List OrgField, (∃ ms, o.members L fs = .ok ms) ↔
      ∀ f ∈ fs, o.isSet f = true → ∃ v, o.encodeField L f = .ok v
  | [] => ⟨fun _ f hf => absurd hf (List.not_mem_nil f), fun _ => ⟨[], rfl⟩⟩
  | f :: fs => by
    have ih := members_ok_iff L o fs
    cases hs : o.isSet f with
    | false =>
      have e1 : o.members L (f :: fs) = o.members L fs := by
        simp only [Organization.members, keep_eq_isSet, hs, Bool.not_false, if_true]
      rw [e1]
      constructor
      · intro h g hg hset
        rcases List.mem_cons.mp hg with hgf | hg1
        · rw [hgf, hs] at hset
          cases hset
        · exact ih.mp h g hg1 hset
      · intro h
        exact ih.mpr fun g hg => h g (List.mem_cons_of_mem _ hg)
    | true =>
      cases hv : o.encodeField L f with
      | error e =>
        have e1 : o.members L (f :: fs) = .error e := by
          simp only [Organization.members, keep_eq_isSet, hs, Bool.not_true, Bool.false_eq_true,
            if_false, hv]
        rw [e1]
        constructor
        · rintro ⟨ms, h⟩
          cases h
        · intro h
          obtain ⟨v, hv1⟩ := h f (List.mem_cons_self _ _) hs
          rw [hv] at hv1
          cases hv1
      | ok v =>
        cases hm : o.members L fs with
        | error e =>
          have e1 : o.members L (f :: fs) = .error e := by
            simp only [Organization.members, keep_eq_isSet, hs, Bool.not_true,
              Bool.false_eq_true, if_false, hv, hm]
          rw [e1]
          constructor
          · rintro ⟨ms, h⟩
            cases h
          · intro h
            obtain ⟨ms, hms⟩ := ih.mpr fun g hg => h g (List.mem_cons_of_mem _ hg)
            rw [hm] at hms
            cases hms
        | ok ms1 =>
          have e1 : o.members L (f :: fs) = .ok ((f.tagName, v) :: ms1) := by
            simp only [Organization.members, keep_eq_isSet, hs, Bool.not_true,
              Bool.false_eq_true, if_false, hv, hm]
          rw [e1]
          constructor
          · intro _ g hg hset
            rcases List.mem_cons.mp hg with hgf | hg1
            · rw [hgf]
              exact ⟨v, hv⟩
            · exact ih.mp ⟨ms1, hm⟩ g hg1 hset
          · intro _
            exact ⟨_, rfl⟩

/-- Every present field encodes exactly when the time and the teams do. -/
theorem fields_ok_iff (L : JSONEncoders E) (o : Organization E) :
    (∀ f ∈ OrgField.all, o.isSet f = true → ∃ v, o.encodeField L f = .ok v) ↔
      o.encodes L = true := by
  constructor
  · intro h
    simp only [Organization.encodes, Bool.and_eq_true]
    constructor
    · cases hd : o.DateCreated with
      | none => rfl
      | some t =>
        obtain ⟨v, hv⟩ := h .DateCreated (mem_all _) (by simp [Organization.isSet, hd])
        simp only [Organization.encodeField, hd] at hv
        simp only [hv, succeeds]
    · cases hd : o.Teams with
      | none => rfl
      | some ts =>
        obtain ⟨v, hv⟩ := h .Teams (mem_all _) (by simp [Organization.isSet, hd])
        simp only [Organization.encodeField, hd] at hv
        simp only [hv, succeeds]
  · intro h f _ _
    simp only [Organization.encodes, Bool.and_eq_true] at h
    cases f with
    | DateCreated =>
      simp only [Organization.encodeField]
      cases hd : o.DateCreated with
      | none => exact ⟨_, rfl⟩
      | some t =>
        have h1 := h.1
        simp only [hd] at h1
        cases hv : L.encTime t with
        | error e => rw [hv] at h1; cases h1
        | ok v => exact ⟨v, hv⟩
    | Teams =>
      simp only [Organization.encodeField]
      cases hd : o.Teams with
      | none => exact ⟨_, rfl⟩
      | some ts =>
        have h2 := h.2
        simp only [hd] at h2
        cases hv : encSliceM L.encTeam ts with
        | error e => rw [hv] at h2; cases h2
        | ok v => exact ⟨v, hv⟩
    | _ => exact ⟨_, rfl⟩

/-- The encoding succeeds exactly when the time and the teams encode. -/
theorem Marshal_ok_iff (L : JSONEncoders E) (o : Organization E) :
    (∃ j, o.Marshal L = .ok j) ↔ o.encodes L = true := by
  rw [← fields_ok_iff, ← members_ok_iff]
  unfold Organization.Marshal
  cases hm : o.members L OrgField.all with
  | error e => simp
  | ok ms => simp

/-- The keys of an encoding are the tag names of the fields that are present, in the
order of the declaration. -/
theorem keys_Marshal (L : JSONEncoders E) (o : Organization E) (j : Json)
    (h : o.Marshal L = .ok j) :
    j.keys = (OrgField.all.filter o.isSet).map OrgField.tagName := by
  unfold Organization.Marshal at h
  cases hm : o.members L OrgField.all with
  | error e => rw [hm] at h; cases h
  | ok ms =>
    rw [hm] at h
    simp only [Except.ok.injEq] at h
    subst h
    exact keys_members L o OrgField.all ms hm

/-- The decoder stores the member `name` in the field `Name`. -/
theorem Unmarshal_name (D : JSONDecoders E) (v : Json) (o : Organization E) :
    Organization.Unmarshal D (.obj [("name", v)]) o =
      ({ o with Name := (decString v o.Name).1 }, (decString v o.Name).2) := by
  simp [Organization.Unmarshal, Organization.decodeMembers, findField, OrgField.all,
    OrgField.tagName, Organization.decodeField]

/-- Decoding the literal the encoder wrote for a name. -/
theorem decString_quote (n cur : GoString) :
    decString (.str (quote n)) cur = (replaceInvalid n, none) := by
  simp only [decString, unquote_quote, replaceInvalid]

/-- C8, with the condition it needs. The organization with the name `n` and no
optional field encodes to an object with the single key `name`. Decoding that object
into a fresh organization gives, without error, the organization with the name `n`
in which every byte that is not UTF-8 is replaced by U+FFFD, and every optional field
still nil. When `n` is the UTF-8 form of a text `s` nothing is replaced and the round
trip gives back the original. -/
theorem roundtrip_name_only (L : JSONEncoders E) (D : JSONDecoders E) (n : GoString)
    (s : String) :
    let o := Organization.withName E n
    let doc : Json := .obj [("name", .str (quote n))]
    let back := Organization.Unmarshal D doc (Organization.zero E)
    o.Marshal L = .ok doc ∧ doc.keys = ["name"] ∧
      back = (Organization.withName E (replaceInvalid n), none) ∧
      (back.1.PendingAccessRequest = none ∧ back.1.Slug = none ∧
        back.1.Quota = none ∧ back.1.DateCreated = none ∧ back.1.Teams = none ∧
        back.1.ID = none ∧ back.1.IsEarlyAdopter = none ∧ back.1.Features = none) ∧
      replaceInvalid (utf8 s) = utf8 s ∧
      (Organization.withName E (utf8 s)).Marshal L =
        .ok (.obj [("name", .str (quote (utf8 s)))]) ∧
      Organization.Unmarshal D (.obj [("name", .str (quote (utf8 s)))]) (Organization.zero E) =
        (Organization.withName E (utf8 s), none) := by
  intro o doc back
  have hb : back = (Organization.withName E (replaceInvalid n), none) := by
    show Organization.Unmarshal D (.obj [("name", .str (quote n))]) (Organization.zero E) = _
    rw [Unmarshal_name, decString_quote]
    rfl
  refine ⟨rfl, rfl, hb, ?_, replaceInvalid_utf8 s, rfl, ?_⟩
  · rw [hb]
    exact ⟨rfl, rfl, rfl, rfl, rfl, rfl, rfl, rfl⟩
  · rw [Unmarshal_name, decString_quote, replaceInvalid_utf8]
    rfl

/-- C9, with the condition it needs. `json.Marshal` gives an encoding exactly when the
time and the teams of the organization encode. Every encoding has the key `name`,
also for the empty name, and has the key of an optional field exactly when the field
is not nil. The keys depend on nothing else: they are the tag names of the present
fields, so an encoding of an organization whose optional fields point to zero values
(0, the empty string, false, an empty list, a quota of 0 and 0) has all nine keys. -/
theorem keys_follow_presence (L : JSONEncoders E) (o : Organization E) :
    ((∃ j, o.Marshal L = .ok j) ↔ o.encodes L = true) ∧
    (∀ j, o.Marshal L = .ok j →
      "name" ∈ j.keys ∧
      ("pendingAccessRequests" ∈ j.keys ↔ o.PendingAccessRequest ≠ none) ∧
      ("slug" ∈ j.keys ↔ o.Slug ≠ none) ∧
      ("quota" ∈ j.keys ↔ o.Quota ≠ none) ∧
      ("dateCreated" ∈ j.keys ↔ o.DateCreated ≠ none) ∧
      ("teams" ∈ j.keys ↔ o.Teams ≠ none) ∧
      ("id" ∈ j.keys ↔ o.ID ≠ none) ∧
      ("isEarlyAdopter" ∈ j.keys ↔ o.IsEarlyAdopter ≠ none) ∧
      ("features" ∈ j.keys ↔ o.Features ≠ none) ∧
      j.keys = (OrgField.all.filter o.isSet).map OrgField.tagName) ∧
    (∀ j, Organization.Marshal L { o with Name := [] } = .ok j → "name" ∈ j.keys) ∧
    (∀ (t : E.Time) (j : Json), (Organization.zeroValues E t).Marshal L = .ok j →
      j.keys = ["pendingAccessRequests", "slug", "name", "quota", "dateCreated", "teams", "id",
        "isEarlyAdopter", "features"]) := by
  refine ⟨Marshal_ok_iff L o, fun j hj => ?_, fun j hj => ?_, fun t j hj => ?_⟩
  · have hk := keys_Marshal L o j hj
    have key : ∀ f : OrgField, f.tagName ∈ j.keys ↔ o.isSet f = true := by
      intro f
      rw [hk]
      exact tagName_mem_iff o.isSet f
    refine ⟨(key .Name).mpr rfl, ?_, ?_, ?_, ?_, ?_, ?_, ?_, ?_, hk⟩
    · exact (key .PendingAccessRequest).trans
        (by simp [Organization.isSet, Option.isSome_iff_ne_none])
    · exact (key .Slug).trans (by simp [Organization.isSet, Option.isSome_iff_ne_none])
    · exact (key .Quota).trans (by simp [Organization.isSet, Option.isSome_iff_ne_none])
    · exact (key .DateCreated).trans (by simp [Organization.isSet, Option.isSome_iff_ne_none])
    · exact (key .Teams).trans (by simp [Organization.isSet, Option.isSome_iff_ne_none])
    · exact (key .ID).trans (by simp [Organization.isSet, Option.isSome_iff_ne_none])
    · exact (key .IsEarlyAdopter).trans
        (by simp [Organization.isSet, Option.isSome_iff_ne_none])
    · exact (key .Features).trans (by simp [Organization.isSet, Option.isSome_iff_ne_none])
  · rw [keys_Marshal L _ j hj]
    exact (tagName_mem_iff _ .Name).mpr rfl
  · rw [keys_Marshal L _ j hj]
    rfl

end JsonTheorems

/-! ## Encodings that refute -/

/-- C2 fails as stated. For the name with the bytes `a`, 0xFF, `b`, which is not
UTF-8, `CreateOrganization` sends the organization with that name as body; its
encoding has the single member `name`, but the value of the member stands for the
name with U+FFFD in the place of the byte 0xFF, which is another string. -/
theorem CreateOrganization_name_not_preserved :
    (CreateOrganization (servingClient (namedOrg "Acme" "acme")) [97, 255, 98] ⟨0, []⟩).2.calls.map
        (fun call => call.body) =
      [Arg.org (Organization.withName Fixture [97, 255, 98])] ∧
    (∀ L : JSONEncoders Fixture,
      (Organization.withName Fixture [97, 255, 98]).Marshal L =
          .ok (.obj [("name", .str "\"a\\ufffdb\"".data)]) ∧
        ((Organization.withName Fixture [97, 255, 98]).Marshal L).map Json.text =
          .ok "\x7b\"name\":\"a\\ufffdb\"\x7d") ∧
    (Json.str "\"a\\ufffdb\"".data).stringValue = some [97, 239, 191, 189, 98] ∧
    ([97, 239, 191, 189, 98] : GoString) ≠ [97, 255, 98] :=
  ⟨rfl, fun _ => ⟨rfl, rfl⟩, by decide, by decide⟩

/-- C8 fails as stated. The organization whose name has the bytes `a`, 0xFF, `b` and
which has no optional field does not come back from the round trip: the encoding
writes the escape of U+FFFD for the byte 0xFF, and decoding gives a name of five
bytes. -/
theorem roundtrip_changes_invalid_name :
    (∀ (L : JSONEncoders Fixture) (D : JSONDecoders Fixture),
      (Organization.withName Fixture [97, 255, 98]).Marshal L =
          .ok (.obj [("name", .str "\"a\\ufffdb\"".data)]) ∧
        (Organization.Unmarshal D (.obj [("name", .str "\"a\\ufffdb\"".data)])
          (Organization.zero Fixture)).1.Name = [97, 239, 191, 189, 98]) ∧
    (Organization.withName Fixture [97, 255, 98]).Name ≠ [97, 239, 191, 189, 98] := by
  refine ⟨fun L D => ⟨rfl, ?_⟩, by decide⟩
  rw [Unmarshal_name]
  decide

/-- C9 fails as stated. An organization created in the year 10000 has a creation time
that is not nil and yet no encoding: `MarshalJSON` of the time fails, and so does
`json.Marshal`, whatever the encoder of teams is; there is no document with the key
`name` or the key `dateCreated`. -/
theorem Marshal_fails_on_year_10000 :
    (datedOrg "Acme" ⟨10000, 1, 1, 0, 0, 0⟩).DateCreated ≠ none ∧
    (∀ encTeam : String → Except GoError Json,
      Organization.Marshal ⟨ClockTime.MarshalJSON, encTeam⟩
          (datedOrg "Acme" ⟨10000, 1, 1, 0, 0, 0⟩) =
          .error ⟨"json: error calling MarshalJSON for type *time.Time: " ++
            "Time.MarshalJSON: year outside of range [0,9999]"⟩ ∧
        ¬ ∃ j, Organization.Marshal ⟨ClockTime.MarshalJSON, encTeam⟩
          (datedOrg "Acme" ⟨10000, 1, 1, 0, 0, 0⟩) = .ok j ∧ "name" ∈ j.keys) := by
  refine ⟨by simp [datedOrg], fun encTeam => ?_⟩
  have h : Organization.Marshal ⟨ClockTime.MarshalJSON, encTeam⟩
      (datedOrg "Acme" ⟨10000, 1, 1, 0, 0, 0⟩) =
      .error ⟨"json: error calling MarshalJSON for type *time.Time: " ++
        "Time.MarshalJSON: year outside of range [0,9999]"⟩ := rfl
  refine ⟨h, ?_⟩
  rintro ⟨j, hj, _⟩
  rw [h] at hj
  cases hj

end Sentry
